import Mathlib

/-!
Shallow embedding of the ldp rollout/tree-search core and the lmi cost tracker.

The repository snapshot under verification contains the test-suite
(`tests/test_rollouts.py`, `tests/test_algorithms.py`), the `ldp.alg` package
init file and `lmi/cost_tracker.py`; the rollout/tree-search implementation
modules themselves (`ldp/data_structures.py`, `ldp/alg/rollout.py`,
`ldp/alg/tree_search.py`, `ldp/alg/beam_search.py`) are not present, so those
components are modelled from the specification (spec.md sections 3-7), with the
test-suite fixing the concrete expectations.  The cost tracker is embedded
directly from `lmi/cost_tracker.py`.
-/

namespace LdpSpec

variable {S O A : Type}

variable {T E : Type}

/-- Modelled from the spec: the four callback notification points of the
Callback interface (spec section 4.5); the implementation module
`ldp/alg/callbacks.py` is not in the snapshot. -/
inductive CBPoint : Type
  | beforeTransition
  | afterAgentGetASV
  | afterEnvStep
  | afterTransition
deriving DecidableEq, Repr

/-- Modelled from the spec: a Transition records one agent/environment step
(spec section 3).  `S` is the opaque agent-state type, `O` the observation
type, `A` the action type.  Rewards and values are rationals standing for the
real numbers of the spec. -/
structure Transition (S O A : Type) where
  timestep : Nat
  agent_state : S
  next_agent_state : S
  observation : O
  next_observation : O
  action : A
  reward : ℚ
  done : Bool
  truncated : Bool
  value : Option ℚ
deriving DecidableEq, Repr

/-- Modelled from the spec: a Trajectory is an ordered sequence of Transitions
plus a string `traj_id` (spec section 3). -/
structure Trajectory (S O A : Type) where
  traj_id : String
  steps : List (Transition S O A)
deriving DecidableEq, Repr

/-- Modelled from the spec: the error kinds of spec section 7.  The
implementation module that declares them is not in the snapshot. -/
inductive LDPError : Type
  | structural
  | notFound
  | cycle
  | agentFailure
  | envFailure
deriving DecidableEq, Repr

/-- Modelled from the spec: per-driver failure-catching configuration
(spec section 7): AgentFailure/EnvironmentFailure are caught only when the
corresponding flag is enabled; StructuralError, NotFoundError and CycleError
are never caught and always propagate. -/
def catchesError (catch_agent_failures catch_env_failures : Bool) :
    LDPError → Bool
  | .agentFailure => catch_agent_failures
  | .envFailure => catch_env_failures
  | _ => false

/-- Modelled from the spec: a Transition Tree is a mapping from hierarchical
path identifiers to Transitions, rooted at a configurable `root_id`
(spec section 3).  A path id below the root is embedded as the list of its
colon-separated integer segments (branch indices); the arena is kept as an
insertion-ordered association list, mirroring the id-indexed mapping the spec
prescribes. -/
structure TransitionTree (S O A : Type) where
  root_id : String
  nodes : List (List Nat × Transition S O A)
deriving DecidableEq, Repr

/-- Look up the transition recorded under a path id (first entry wins). -/
def TransitionTree.lookup (tree : TransitionTree S O A) (k : List Nat) :
    Option (Transition S O A) :=
  (tree.nodes.find? (fun kv => kv.1 == k)).map Prod.snd

/-- All recorded path ids, in insertion order. -/
def TransitionTree.keys (tree : TransitionTree S O A) : List (List Nat) :=
  tree.nodes.map Prod.fst

/-- Modelled from the spec: `add_transition(id, transition)` inserts under the
parent-exists invariant; it fails with a StructuralError if the parent path is
missing (for ids more than one level below the root; a child one level below
the root implicitly attaches to the root) or the id already exists
(spec section 4.1).  The root id itself always exists. -/
def TransitionTree.add_transition (tree : TransitionTree S O A)
    (k : List Nat) (t : Transition S O A) :
    Except LDPError (TransitionTree S O A) :=
  if k = [] then .error .structural
  else if (tree.lookup k).isSome then .error .structural
  else if 2 ≤ k.length ∧ (tree.lookup k.dropLast).isNone then .error .structural
  else .ok { tree with nodes := tree.nodes ++ [(k, t)] }

/-- Modelled from the spec: `get_transition(id)` fails with a NotFoundError if
the id is absent (spec section 4.1). -/
def TransitionTree.get_transition (tree : TransitionTree S O A)
    (k : List Nat) : Except LDPError (Transition S O A) :=
  match tree.lookup k with
  | some t => .ok t
  | none => .error .notFound

/-- The recorded ids that sit directly below `k` (their id with the last
segment removed equals `k`). -/
def TransitionTree.childKeys (tree : TransitionTree S O A) (k : List Nat) :
    List (List Nat) :=
  tree.keys.filter (fun c => decide (c ≠ [] ∧ c.dropLast = k))

/-- Leaf ids: recorded ids with no recorded child (spec section 4.1). -/
def TransitionTree.leafKeys (tree : TransitionTree S O A) : List (List Nat) :=
  tree.keys.filter (fun k => (tree.childKeys k).isEmpty)

/-- Render a path (list of branch indices) as a colon-separated id string. -/
def branchString (k : List Nat) : String :=
  String.intercalate ":" (k.map toString)

/-- Full string id of a node: the root id followed by the colon-separated
branch indices. -/
def TransitionTree.fullId (tree : TransitionTree S O A) (k : List Nat) :
    String :=
  tree.root_id ++ ":" ++ branchString k

/-- The nonempty initial segments of a path, shortest first: the path ids of
the nodes on the root-to-`k` path. -/
def initialSegs (k : List Nat) : List (List Nat) :=
  (List.range k.length).map (fun i => k.take (i + 1))

/-- Modelled from the spec: `get_trajectories()` reconstructs every
root-to-leaf path as a Trajectory whose `traj_id` is the leaf's path id
(spec sections 3 and 4.1). -/
def TransitionTree.get_trajectories (tree : TransitionTree S O A) :
    List (Trajectory S O A) :=
  tree.leafKeys.map (fun l =>
    { traj_id := tree.fullId l
      steps := (initialSegs l).filterMap tree.lookup })

/-- Length of the longest recorded path id. -/
def TransitionTree.maxKeyLen (tree : TransitionTree S O A) : Nat :=
  tree.keys.foldr (fun k m => max k.length m) 0

/-- Reward recorded under a path id (0 if absent; only used on recorded ids). -/
def TransitionTree.rewardAt (tree : TransitionTree S O A) (k : List Nat) : ℚ :=
  ((tree.lookup k).map Transition.reward).getD 0

/-- Modelled from the spec: the Monte-Carlo value of a node, computed
children-before-parent (spec section 4.1): a leaf's value is its reward; an
internal node's value is `reward + discount_factor * mean(child values)`.
The fuel argument bounds the recursion depth; it is instantiated so that a
node's fuel strictly exceeds the height of its subtree. -/
def TransitionTree.nodeValue (tree : TransitionTree S O A) (γ : ℚ)
    (fuel : Nat) : List Nat → ℚ :=
  Nat.rec (motive := fun _ => List Nat → ℚ)
    (fun k => tree.rewardAt k)
    (fun _ ih k =>
      let cs := tree.childKeys k
      if cs.isEmpty then tree.rewardAt k
      else tree.rewardAt k + γ * ((cs.map ih).sum / cs.length))
    fuel

/-- Modelled from the spec: `assign_mc_value_estimates(discount_factor)` writes
every node's Monte-Carlo value estimate in a single bottom-up pass
(spec section 4.1). -/
def TransitionTree.assign_mc_value_estimates (tree : TransitionTree S O A)
    (γ : ℚ) : TransitionTree S O A :=
  { tree with
    nodes := tree.nodes.map (fun kv =>
      (kv.1, { kv.2 with
        value := some (tree.nodeValue γ (tree.maxKeyLen + 1 - kv.1.length) kv.1) })) }

/-- The value recorded under a path id after assignment. -/
def TransitionTree.valueAt (tree : TransitionTree S O A) (k : List Nat) :
    Option ℚ :=
  (tree.lookup k).bind Transition.value

/-! The concrete tree of `test_tree_mc_value` (tests/test_rollouts.py).  Its
transitions carry no agent state, observation or action (the test passes
`None` / the no-observation sentinel for all of them), root id "dummy",
children of the root path encoded as branch-index lists. -/

/-- Transition instantiation used by `test_tree_mc_value`: opaque fields are
all absent. -/
abbrev TrU := Transition (Option Unit) (Option Unit) (Option Unit)

/-- Tree instantiation used by `test_tree_mc_value`. -/
abbrev TreeU := TransitionTree (Option Unit) (Option Unit) (Option Unit)

/-- A bare test transition with a given timestep, reward and done flag. -/
def mkTrU (ts : Nat) (r : ℚ) (dn : Bool) : TrU :=
  { timestep := ts, agent_state := none, next_agent_state := none,
    observation := none, next_observation := none, action := none,
    reward := r, done := dn, truncated := false, value := none }

/-- The empty tree rooted at "dummy". -/
def emptyTreeU : TreeU := { root_id := "dummy", nodes := [] }

/-- The tree built by `test_tree_mc_value` through successive
`add_transition` calls (rewards 0 at dummy:0, 1 at dummy:0:0, 0/1/2 at the
dummy:0:0:i leaves, -1 at dummy:0:1). -/
def testTree : TreeU :=
  ((((((emptyTreeU.add_transition [0] (mkTrU 0 0 false)).bind
    (fun t => t.add_transition [0, 0] (mkTrU 1 1 false))).bind
    (fun t => t.add_transition [0, 0, 0] (mkTrU 2 0 true))).bind
    (fun t => t.add_transition [0, 0, 1] (mkTrU 2 1 true))).bind
    (fun t => t.add_transition [0, 0, 2] (mkTrU 2 2 true))).bind
    (fun t => t.add_transition [0, 1] (mkTrU 1 (-1) true))).toOption.getD
    emptyTreeU

/-! Drivers.  Modelled from the spec (sections 4.2-4.4, 6): the agent and the
environment are external collaborators reached only through their capability
sets, embedded as pure state-passing functions; the driver modules
(`ldp/alg/rollout.py`, `ldp/alg/tree_search.py`, `ldp/alg/beam_search.py`) are
not in the snapshot.  `T` is the opaque tools type, `E` the environment state
type. -/

/-- Result of one agent `get_asv` call: action, next agent state, value. -/
structure ASVResult (S A : Type) where
  action : A
  next_agent_state : S
  value : ℚ

/-- Result of one environment `step` call: next environment state (the
environment is stateful; cloning under tree/beam search is copying this
value), next observation, reward, done, truncated. -/
structure StepResult (E O : Type) where
  env : E
  obs : O
  reward : ℚ
  done : Bool
  truncated : Bool

/-- Modelled from the spec: the Agent capability set
`init_state(tools) -> AgentState`, `get_asv(agent_state, obs)` (spec
section 6). -/
structure AgentModel (T S O A : Type) where
  init_state : T → S
  get_asv : S → O → ASVResult S A

/-- Modelled from the spec: the Environment capability set
`reset() -> (obs, tools)`, `step(action) -> (obs, reward, done, truncated)`
(spec section 6), with the environment state passed explicitly. -/
structure EnvModel (E T O A : Type) where
  reset : E → E × O × T
  step : E → A → StepResult E O

/-- The four callback notifications fired for one transition, in order
(spec sections 4.2 and 4.5). -/
def stepEvents : List CBPoint :=
  [CBPoint.beforeTransition, CBPoint.afterAgentGetASV,
   CBPoint.afterEnvStep, CBPoint.afterTransition]

/-- Modelled from the spec: the per-environment sampling loop of the Rollout
Manager (spec section 4.2): repeatedly query the agent, step the environment,
assemble a Transition (firing the four callback points), and stop on done,
truncated, or when `max_steps` (the fuel) is exhausted.  Returns the steps
of the trajectory together with the emitted callback events. -/
def RolloutManager.runLoop (ag : AgentModel T S O A) (env : EnvModel E T O A) :
    Nat → E → S → O → Nat → List (Transition S O A) × List CBPoint
  | 0, _, _, _, _ => ([], [])
  | fuel + 1, es, ast, obs, t =>
    let asv := ag.get_asv ast obs
    let sr := env.step es asv.action
    let tr : Transition S O A :=
      { timestep := t, agent_state := ast,
        next_agent_state := asv.next_agent_state, observation := obs,
        next_observation := sr.obs, action := asv.action, reward := sr.reward,
        done := sr.done, truncated := sr.truncated, value := none }
    if sr.done || sr.truncated then ([tr], stepEvents)
    else
      let rest := RolloutManager.runLoop ag env fuel sr.env
        asv.next_agent_state sr.obs (t + 1)
      (tr :: rest.1, stepEvents ++ rest.2)

/-- Modelled from the spec: sample one linear trajectory from one environment
(spec section 4.2): reset the environment, initialize the agent state, then
run the interaction loop. -/
def RolloutManager.sample_trajectory (ag : AgentModel T S O A)
    (env : EnvModel E T O A) (e0 : E) (max_steps : Nat) (tid : String) :
    Trajectory S O A × List CBPoint :=
  let r0 := env.reset e0
  let s0 := ag.init_state r0.2.2
  let r := RolloutManager.runLoop ag env max_steps r0.1 s0 r0.2.1 0
  ({ traj_id := tid, steps := r.1 }, r.2)

/-- Modelled from the spec: `sample_trajectories(environments, max_steps)`
produces one Trajectory per supplied environment (spec section 4.2); each
environment gets its own loop and its own agent state.  Also returns the
concatenated callback events. -/
def RolloutManager.sample_trajectories (ag : AgentModel T S O A)
    (env : EnvModel E T O A) (envs : List E) (max_steps : Nat) :
    List (Trajectory S O A) × List CBPoint :=
  let results := envs.enum.map (fun p =>
    RolloutManager.sample_trajectory ag env p.2 max_steps (toString p.1))
  (results.map Prod.fst, results.flatMap Prod.snd)

/-- One step of the deterministic agent/environment dynamics: the environment
state, agent state and observation that the next loop iteration would see. -/
def nextDynState (ag : AgentModel T S O A) (env : EnvModel E T O A)
    (st : E × S × O) : E × S × O :=
  let asv := ag.get_asv st.2.1 st.2.2
  let sr := env.step st.1 asv.action
  (sr.env, asv.next_agent_state, sr.obs)

/-- The dynamics state reached after `n` loop iterations from `st`. -/
def dynStateAt (ag : AgentModel T S O A) (env : EnvModel E T O A) :
    (E × S × O) → Nat → E × S × O
  | st, 0 => st
  | st, n + 1 => dynStateAt ag env (nextDynState ag env st) n

/-- Whether the environment signals done or truncated at the step taken from
the dynamics state reached after `n` iterations (0-based). -/
def stopFlagAt (ag : AgentModel T S O A) (env : EnvModel E T O A)
    (st : E × S × O) (n : Nat) : Bool :=
  let stn := dynStateAt ag env st n
  let asv := ag.get_asv stn.2.1 stn.2.2
  let sr := env.step stn.1 asv.action
  sr.done || sr.truncated

/-- Count of one notification point in an event log. -/
def countTag (evs : List CBPoint) (tag : CBPoint) : Nat :=
  evs.countP (fun e => decide (e = tag))

/-- Modelled from the spec: whether a node's own reward meets or exceeds the
configured `target_reward` (spec section 4.3); the early-stop trigger. -/
def targetMet (target_reward : Option ℚ) (r : ℚ) : Bool :=
  match target_reward with
  | some g => decide (g ≤ r)
  | none => false

/-- Modelled from the spec: the recursive expansion of the tree search below
one node (spec section 4.3).  The node's state is `(es, ast, obs)` (the
environment is cloned for each child, which in this pure embedding is reuse of
the same state value), `t0` is the children's timestep, and the first
component's keys are path ids relative to the node.  Each of the
`branching_factor` children is obtained by stepping the agent once and
applying the action to the clone; a branch stops expanding at depth 0, on
done/truncated, or when its reward meets `target_reward`.  Branch indices are
assigned in spawn order 0..b-1.  The second component is the callback event
log: the four notification points fire once per produced Transition. -/
def TreeSearchRollout.expandRel (ag : AgentModel T S O A)
    (env : EnvModel E T O A) (b : Nat) (target_reward : Option ℚ) :
    Nat → Nat → E → S → O → List (List Nat × Transition S O A) × List CBPoint
  | 0, _, _, _, _ => ([], [])
  | d + 1, t0, es, ast, obs =>
    let asv := ag.get_asv ast obs
    let sr := env.step es asv.action
    let tr : Transition S O A :=
      { timestep := t0, agent_state := ast,
        next_agent_state := asv.next_agent_state, observation := obs,
        next_observation := sr.obs, action := asv.action, reward := sr.reward,
        done := sr.done, truncated := sr.truncated, value := none }
    let stop := sr.done || sr.truncated || targetMet target_reward sr.reward
    let sub := if stop then ([], [])
      else TreeSearchRollout.expandRel ag env b target_reward d (t0 + 1)
        sr.env asv.next_agent_state sr.obs
    ((List.range b).flatMap (fun i =>
        ([i], tr) :: sub.1.map (fun kv => (i :: kv.1, kv.2))),
     (List.range b).flatMap (fun _ => stepEvents ++ sub.2))

/-- Modelled from the spec: `sample_tree(env, max_depth, branching_factor,
concurrency_limit, target_reward)` explores a branching tree from one starting
environment (spec section 4.3): reset the environment, initialize the agent
state, and expand below the root.  Returns the Transition Tree and the
callback event log.  (The `concurrency_limit` admission gate only schedules
work and does not affect the produced tree, so it has no counterpart in this
sequential embedding.) -/
def TreeSearchRollout.sample_tree (ag : AgentModel T S O A)
    (env : EnvModel E T O A) (e0 : E) (root_id : String)
    (max_depth branching_factor : Nat) (target_reward : Option ℚ) :
    TransitionTree S O A × List CBPoint :=
  let r0 := env.reset e0
  let s0 := ag.init_state r0.2.2
  let r := TreeSearchRollout.expandRel ag env branching_factor target_reward
    max_depth 0 r0.1 s0 r0.2.1
  ({ root_id := root_id, nodes := r.1 }, r.2)

/-- The environment never signals done or truncated (no early termination). -/
def neverStops (env : EnvModel E T O A) : Prop :=
  ∀ es a, (env.step es a).done = false ∧ (env.step es a).truncated = false

/-- Total node count of a full tree of branching factor `b` and depth `d`:
the recurrence `b * (1 + fullCount b d)`. -/
def fullCount (b : Nat) : Nat → Nat
  | 0 => 0
  | d + 1 => b * (1 + fullCount b d)

/-- The transition assembled for every child spawned at one node. -/
def nodeTrOf (ag : AgentModel T S O A) (env : EnvModel E T O A) (t0 : Nat)
    (es : E) (ast : S) (obs : O) : Transition S O A :=
  { timestep := t0, agent_state := ast,
    next_agent_state := (ag.get_asv ast obs).next_agent_state,
    observation := obs,
    next_observation := (env.step es (ag.get_asv ast obs).action).obs,
    action := (ag.get_asv ast obs).action,
    reward := (env.step es (ag.get_asv ast obs).action).reward,
    done := (env.step es (ag.get_asv ast obs).action).done,
    truncated := (env.step es (ag.get_asv ast obs).action).truncated,
    value := none }

/-- Whether expansion stops below a node: done, truncated, or target met. -/
def stopCond (ag : AgentModel T S O A) (env : EnvModel E T O A)
    (target_reward : Option ℚ) (es : E) (ast : S) (obs : O) : Bool :=
  (env.step es (ag.get_asv ast obs).action).done
    || (env.step es (ag.get_asv ast obs).action).truncated
    || targetMet target_reward (env.step es (ag.get_asv ast obs).action).reward

/-- A trivial agent over unit state, observation, action and tools. -/
def unitAgent : AgentModel Unit Unit Unit Unit :=
  { init_state := fun _ => ()
    get_asv := fun _ _ => { action := (), next_agent_state := (), value := 0 } }

/-- A trivial environment that never terminates and always rewards 0. -/
def unitEnv : EnvModel Unit Unit Unit Unit :=
  { reset := fun e => (e, (), ())
    step := fun _ _ =>
      { env := (), obs := (), reward := 0, done := false, truncated := false } }

/-- The counterexample to claim C3 as stated: with branching factor 2 and
max_depth 1, a first-step reward that meets the target (reward 1 vs target 1)
still yields 2 = 2 ^ 1 trajectories, not strictly fewer than `b ^ d`. -/
def unitEnvRewardOne : EnvModel Unit Unit Unit Unit :=
  { reset := fun e => (e, (), ())
    step := fun _ _ =>
      { env := (), obs := (), reward := 1, done := false, truncated := false } }

/-- The counting agent of the test-suite (`CountingAgent`): its state is the
last observed counter plus one. -/
def countingAgent : AgentModel Unit Nat Nat Unit :=
  { init_state := fun _ => 0
    get_asv := fun _ obs =>
      { action := (), next_agent_state := obs + 1, value := 0 } }

/-- The counting environment of the test-suite (`CountingEnv`): its state is
a counter incremented by each step, done once the counter reaches 3. -/
def countingEnv : EnvModel Nat Unit Nat Unit :=
  { reset := fun e => (e, e, ())
    step := fun e _ =>
      { env := e + 1, obs := e + 1, reward := 0,
        done := decide (3 ≤ e + 1), truncated := false } }

/-- Modelled from the spec: a Beam is the ephemeral per-candidate state of
beam search (spec section 3): a cloned environment, a cloned agent state, the
latest observation, the trajectory so far, and whether it has terminated. -/
structure Beam (E S O A : Type) where
  env : E
  agent_state : S
  obs : O
  steps : List (Transition S O A)
  terminal : Bool

/-- One candidate continuation of a beam: step the agent once, apply the
action to the beam's cloned environment, and append the resulting Transition
(spec section 4.4).  Returns the continued beam and the produced Transition. -/
def BeamSearchRollout.stepBeam (ag : AgentModel T S O A)
    (env : EnvModel E T O A) (bm : Beam E S O A) :
    Beam E S O A × Transition S O A :=
  let asv := ag.get_asv bm.agent_state bm.obs
  let sr := env.step bm.env asv.action
  let tr : Transition S O A :=
    { timestep := bm.steps.length, agent_state := bm.agent_state,
      next_agent_state := asv.next_agent_state, observation := bm.obs,
      next_observation := sr.obs, action := asv.action, reward := sr.reward,
      done := sr.done, truncated := sr.truncated, value := none }
  ({ env := sr.env, agent_state := asv.next_agent_state, obs := sr.obs,
     steps := bm.steps ++ [tr], terminal := sr.done || sr.truncated }, tr)

/-- Stable insertion (by score, descending; ties keep existing order). -/
def insertByScoreDesc (score : Beam E S O A → ℚ) (x : Beam E S O A) :
    List (Beam E S O A) → List (Beam E S O A)
  | [] => [x]
  | y :: ys =>
    if score y < score x then x :: y :: ys
    else y :: insertByScoreDesc score x ys

/-- Stable sort by score, descending (spec section 4.4: ties broken by
stable insertion order). -/
def sortByScoreDesc (score : Beam E S O A → ℚ) :
    List (Beam E S O A) → List (Beam E S O A)
  | [] => []
  | x :: xs => insertByScoreDesc score x (sortByScoreDesc score xs)

/-- Modelled from the spec: the rounds of beam search for one starting
environment (spec section 4.4).  Each round, every live beam spawns
`samples_per_beam` candidates (each firing the four callback points for its
produced Transition), candidates are scored by the injected `scoring_fn` and
only the top `beam_width` survive; finished candidates are set aside.
Rounds stop at `max_steps` (the fuel) or when no live beam remains.  Returns
the surviving beams, every Transition produced during the call (kept or
discarded), and the callback event log. -/
def BeamSearchRollout.rounds (ag : AgentModel T S O A)
    (env : EnvModel E T O A) (scoring_fn : List (Transition S O A) → ℚ)
    (beam_width spb : Nat) :
    Nat → List (Beam E S O A) → List (Beam E S O A) →
      List (Beam E S O A) × List (Transition S O A) × List CBPoint
  | 0, live, finished => (finished ++ live, [], [])
  | fuel + 1, live, finished =>
    if live.isEmpty then (finished, [], [])
    else
      let stepped := live.flatMap (fun bm =>
        (List.range spb).map (fun _ => BeamSearchRollout.stepBeam ag env bm))
      let cands := stepped.map Prod.fst
      let produced := stepped.map Prod.snd
      let evs := produced.flatMap (fun _ => stepEvents)
      let kept := (sortByScoreDesc (fun c => scoring_fn c.steps) cands).take
        beam_width
      let fin2 := kept.filter (fun c => c.terminal)
      let live2 := kept.filter (fun c => !c.terminal)
      let rest := BeamSearchRollout.rounds ag env scoring_fn beam_width spb
        fuel live2 (finished ++ fin2)
      (rest.1, produced ++ rest.2.1, evs ++ rest.2.2)

/-- Modelled from the spec: `sample_trajectories(environments, max_steps,
beam_width, samples_per_beam)` (spec section 4.4): one beam-search run per
starting environment, one Trajectory per surviving beam.  Also returns all
produced Transitions and the callback event log. -/
def BeamSearchRollout.sample_trajectories (ag : AgentModel T S O A)
    (env : EnvModel E T O A) (scoring_fn : List (Transition S O A) → ℚ)
    (beam_width spb : Nat) (envs : List E) (max_steps : Nat) :
    List (Trajectory S O A) × List (Transition S O A) × List CBPoint :=
  let per := envs.enum.map (fun p =>
    let r0 := env.reset p.2
    let s0 := ag.init_state r0.2.2
    let beam0 : Beam E S O A :=
      { env := r0.1, agent_state := s0, obs := r0.2.1, steps := [],
        terminal := false }
    let r := BeamSearchRollout.rounds ag env scoring_fn beam_width spb
      max_steps [beam0] []
    (r.1.map (fun bm =>
        ({ traj_id := toString p.1, steps := bm.steps } : Trajectory S O A)),
      r.2.1, r.2.2))
  (per.flatMap (fun x => x.1), per.flatMap (fun x => x.2.1),
    per.flatMap (fun x => x.2.2))

/-! Trajectory serialization.  The spec treats the file format as owned by an
excluded serialization collaborator and only requires the round-trip at the
interface (spec sections 6 and 8); the opaque agent-state, observation and
action payloads are serialized at the `String` instantiation. -/

/-- Transition with string payloads, the instantiation used at the
serialization boundary. -/
abbrev TransitionS := Transition String String String

/-- Trajectory with string payloads. -/
abbrev TrajectoryS := Trajectory String String String

/-- Encode a Bool as one character. -/
def encodeBool (b : Bool) : String := if b then "1" else "0"

/-- Decode a Bool from one character. -/
def decodeBool (s : String) : Bool := s == "1"

/-- Modelled from the spec: render one Transition as one line of the JSONL
file, fields separated by a bar. -/
def encodeStepLine (t : TransitionS) : String :=
  String.intercalate "|"
    [toString t.timestep, t.agent_state, t.next_agent_state, t.observation,
     t.next_observation, t.action, toString t.reward.num,
     toString t.reward.den, encodeBool t.done, encodeBool t.truncated,
     encodeBool t.value.isSome, toString (t.value.getD 0).num,
     toString (t.value.getD 0).den]

/-- Modelled from the spec: parse one line back into a Transition, with
defaults for malformed fields (the collaborator's validation is out of
scope). -/
def decodeStepLine (line : String) : TransitionS :=
  let f := line.splitOn "|"
  let get := fun (i : Nat) => (f.getD i "")
  { timestep := (get 0).toNat?.getD 0, agent_state := get 1,
    next_agent_state := get 2, observation := get 3,
    next_observation := get 4, action := get 5,
    reward := mkRat ((get 6).toInt?.getD 0) ((get 7).toNat?.getD 1),
    done := decodeBool (get 8), truncated := decodeBool (get 9),
    value := if decodeBool (get 10) then
        some (mkRat ((get 11).toInt?.getD 0) ((get 12).toNat?.getD 1))
      else none }

/-- Modelled from the spec: `to_jsonl` writes the trajectory as JSONL lines —
a header line holding `traj_id` followed by one line per step (spec
section 6: the exact field layout is the serialization collaborator's; the
core guarantees the in-memory shape). -/
def Trajectory.to_jsonl (traj : TrajectoryS) : List String :=
  traj.traj_id :: traj.steps.map encodeStepLine

/-- Modelled from the spec: `from_jsonl` rehydrates a Trajectory from JSONL
lines: the header line is the `traj_id`, each following line one step. -/
def Trajectory.from_jsonl (lines : List String) : TrajectoryS :=
  { traj_id := lines.headD "", steps := lines.tail.map decodeStepLine }

/-! The cost tracker, embedded directly from `lmi/cost_tracker.py`. -/

/-- The CostTracker of `lmi/cost_tracker.py`: lifetime cost, last reported
cost, the `enabled` flag (a ContextVar in the source, a field here since the
embedding is single-context), and the reporting threshold. -/
structure CostTracker where
  lifetime_cost_usd : ℚ
  last_report : ℚ
  enabled : Bool
  report_every_usd : ℚ

/-- `cost_tracking_ctx(enabled)` from `lmi/cost_tracker.py` lines 50-57: save
the previous `enabled` value, set it to the argument, run the with-block
body, and restore the saved value in a `finally` clause.  The body is an
arbitrary state transformer whose Bool result models whether it raised; the
restore happens on both exits, as with `try/finally`. -/
def cost_tracking_ctx (enabled : Bool)
    (body : CostTracker → CostTracker × Bool) (st : CostTracker) :
    CostTracker × Bool :=
  let prev := st.enabled
  let st1 := { st with enabled := enabled }
  let r := body st1
  ({ r.1 with enabled := prev }, r.2)

/-! Basic lemmas about the Transition Tree. -/

theorem TransitionTree.mem_keys_iff (tree : TransitionTree S O A)
    (k : List Nat) : k ∈ tree.keys ↔ (tree.lookup k).isSome := by
  simp only [TransitionTree.keys, TransitionTree.lookup, Option.isSome_map',
    List.find?_isSome, List.mem_map]
  constructor
  · rintro ⟨kv, hkv, rfl⟩
    exact ⟨kv, hkv, by simp⟩
  · rintro ⟨kv, hkv, hbeq⟩
    exact ⟨kv, hkv, (by simpa using hbeq : kv.1 = k).symm ▸ rfl⟩

theorem foldr_max_len_le (k : List Nat) (l : List (List Nat))
    (h : k ∈ l) : k.length ≤ l.foldr (fun k m => max k.length m) 0 := by
  induction l with
  | nil => cases h
  | cons a l ih =>
    rcases List.mem_cons.mp h with rfl | h'
    · exact le_max_left _ _
    · exact le_trans (ih h') (le_max_right _ _)

theorem TransitionTree.len_le_maxKeyLen (tree : TransitionTree S O A)
    (k : List Nat) (h : k ∈ tree.keys) : k.length ≤ tree.maxKeyLen :=
  foldr_max_len_le k tree.keys h

theorem find?_map_preserving_fst
    (g : List Nat → Transition S O A → Transition S O A) (k : List Nat) :
    ∀ (l : List (List Nat × Transition S O A)),
      (((l.map (fun kv => (kv.1, g kv.1 kv.2))).find?
          (fun kv => kv.1 == k)).map Prod.snd)
        = ((l.find? (fun kv => kv.1 == k)).map Prod.snd).map (g k)
  | [] => rfl
  | kv :: l => by
    by_cases h : kv.1 == k
    · have hk : kv.1 = k := by simpa using h
      simp [List.find?_cons_of_pos, h, hk]
    · simp only [List.map_cons]
      rw [List.find?_cons_of_neg _ (by simpa using h),
        List.find?_cons_of_neg _ (by simpa using h)]
      exact find?_map_preserving_fst g k l

theorem TransitionTree.lookup_assign (tree : TransitionTree S O A) (γ : ℚ)
    (k : List Nat) :
    (tree.assign_mc_value_estimates γ).lookup k =
      (tree.lookup k).map (fun t =>
        { t with
          value := some (tree.nodeValue γ (tree.maxKeyLen + 1 - k.length) k) }) := by
  unfold TransitionTree.assign_mc_value_estimates TransitionTree.lookup
  exact find?_map_preserving_fst
    (fun key t => { t with
      value := some (tree.nodeValue γ (tree.maxKeyLen + 1 - key.length) key) })
    k tree.nodes

theorem TransitionTree.keys_assign (tree : TransitionTree S O A) (γ : ℚ) :
    (tree.assign_mc_value_estimates γ).keys = tree.keys := by
  simp [TransitionTree.keys, TransitionTree.assign_mc_value_estimates,
    List.map_map]

theorem TransitionTree.mem_childKeys (tree : TransitionTree S O A)
    (c k : List Nat) :
    c ∈ tree.childKeys k ↔ c ∈ tree.keys ∧ c ≠ [] ∧ c.dropLast = k := by
  simp [TransitionTree.childKeys, List.mem_filter, and_assoc]

theorem child_length {c k : List Nat} (hne : c ≠ []) (hd : c.dropLast = k) :
    c.length = k.length + 1 := by
  have h1 : c.dropLast.length = c.length - 1 := List.length_dropLast c
  have h2 : 0 < c.length := List.length_pos.mpr hne
  rw [hd] at h1
  omega

theorem TransitionTree.valueAt_assign_of_mem (tree : TransitionTree S O A)
    (γ : ℚ) (k : List Nat) (hk : k ∈ tree.keys) :
    (tree.assign_mc_value_estimates γ).valueAt k =
      some (tree.nodeValue γ (tree.maxKeyLen + 1 - k.length) k) := by
  have hs : (tree.lookup k).isSome := (tree.mem_keys_iff k).mp hk
  obtain ⟨t, ht⟩ := Option.isSome_iff_exists.mp hs
  simp [TransitionTree.valueAt, tree.lookup_assign γ k, ht]

theorem TransitionTree.nodeValue_zero (tree : TransitionTree S O A) (γ : ℚ)
    (k : List Nat) : tree.nodeValue γ 0 k = tree.rewardAt k := rfl

theorem TransitionTree.nodeValue_succ (tree : TransitionTree S O A) (γ : ℚ)
    (fuel : Nat) (k : List Nat) :
    tree.nodeValue γ (fuel + 1) k =
      (if (tree.childKeys k).isEmpty then tree.rewardAt k
       else tree.rewardAt k +
         γ * (((tree.childKeys k).map (tree.nodeValue γ fuel)).sum
           / (tree.childKeys k).length)) := rfl

theorem TransitionTree.nodeValue_leaf (tree : TransitionTree S O A) (γ : ℚ)
    (fuel : Nat) (k : List Nat) (h : tree.childKeys k = []) :
    tree.nodeValue γ fuel k = tree.rewardAt k := by
  cases fuel with
  | zero => rfl
  | succ f => rw [tree.nodeValue_succ γ f k]; simp [h]

theorem testTree_value_00 :
    (testTree.assign_mc_value_estimates (9/10)).valueAt [0, 0] =
      some (19/10) := by
  have hv := testTree.valueAt_assign_of_mem (9/10) [0, 0] (by decide)
  have hmax : testTree.maxKeyLen = 3 := by decide
  rw [hmax] at hv
  rw [hv]
  have hfl : (3 + 1 - ([0, 0] : List Nat).length : Nat) = 1 + 1 := by decide
  rw [hfl, testTree.nodeValue_succ]
  have hck : testTree.childKeys [0, 0] = [[0,0,0], [0,0,1], [0,0,2]] := by
    decide
  rw [hck]
  have l0 := testTree.nodeValue_leaf (9/10) 1 [0,0,0] (by decide)
  have l1 := testTree.nodeValue_leaf (9/10) 1 [0,0,1] (by decide)
  have l2 := testTree.nodeValue_leaf (9/10) 1 [0,0,2] (by decide)
  have r00 : testTree.rewardAt [0, 0] = 1 := by decide
  have r0 : testTree.rewardAt [0,0,0] = 0 := by decide
  have r1 : testTree.rewardAt [0,0,1] = 1 := by decide
  have r2 : testTree.rewardAt [0,0,2] = 2 := by decide
  simp [l0, l1, l2, r00, r0, r1, r2]
  norm_num

theorem testTree_value_0 :
    (testTree.assign_mc_value_estimates (9/10)).valueAt [0] =
      some (81/200) := by
  have hv := testTree.valueAt_assign_of_mem (9/10) [0] (by decide)
  have hmax : testTree.maxKeyLen = 3 := by decide
  rw [hmax] at hv
  rw [hv]
  have hfl : (3 + 1 - ([0] : List Nat).length : Nat) = 2 + 1 := by decide
  rw [hfl, testTree.nodeValue_succ]
  have hck : testTree.childKeys [0] = [[0,0], [0,1]] := by decide
  rw [hck]
  have h00 : testTree.nodeValue (9/10) 2 [0, 0] = 19/10 := by
    rw [show (2 : Nat) = 1 + 1 from rfl, testTree.nodeValue_succ]
    have hck' : testTree.childKeys [0, 0] = [[0,0,0], [0,0,1], [0,0,2]] := by
      decide
    rw [hck']
    have l0 := testTree.nodeValue_leaf (9/10) 1 [0,0,0] (by decide)
    have l1 := testTree.nodeValue_leaf (9/10) 1 [0,0,1] (by decide)
    have l2 := testTree.nodeValue_leaf (9/10) 1 [0,0,2] (by decide)
    have r00 : testTree.rewardAt [0, 0] = 1 := by decide
    have r0 : testTree.rewardAt [0,0,0] = 0 := by decide
    have r1 : testTree.rewardAt [0,0,1] = 1 := by decide
    have r2 : testTree.rewardAt [0,0,2] = 2 := by decide
    simp [l0, l1, l2, r00, r0, r1, r2]
    norm_num
  have h01 := testTree.nodeValue_leaf (9/10) 2 [0, 1] (by decide)
  have r01 : testTree.rewardAt [0, 1] = -1 := by decide
  have rr : testTree.rewardAt [0] = 0 := by decide
  simp [h00, h01, r01, rr]
  norm_num

/-- Claim C1: `assign_mc_value_estimates(discount_factor)` gives every leaf a
value equal to its reward and every internal node a value equal to
`reward + discount_factor * mean(children's finalized values)` (a mean, not a
max), and on the tree of `test_tree_mc_value` the node dummy:0:0 gets value
1 + 0.9 * 1 = 1.9 and dummy:0 gets 0 + 0.9 * ((1.9 + (-1)) / 2) = 81/200. -/
theorem claim_c1_assign_mc_value_estimates (tree : TransitionTree S O A)
    (γ : ℚ) (k : List Nat) (hk : k ∈ tree.keys) :
    ((tree.childKeys k = [] →
        (tree.assign_mc_value_estimates γ).valueAt k =
          some (tree.rewardAt k)) ∧
     (tree.childKeys k ≠ [] →
        (tree.assign_mc_value_estimates γ).valueAt k =
          some (tree.rewardAt k +
            γ * (((tree.childKeys k).map (fun c =>
                (((tree.assign_mc_value_estimates γ).valueAt c).getD 0))).sum
              / (tree.childKeys k).length)))) ∧
    ((testTree.assign_mc_value_estimates (9/10)).valueAt [0, 0] =
        some (19/10) ∧
     (testTree.assign_mc_value_estimates (9/10)).valueAt [0] =
        some (81/200)) := by
  refine ⟨⟨?_, ?_⟩, testTree_value_00, testTree_value_0⟩
  · intro hleaf
    rw [tree.valueAt_assign_of_mem γ k hk,
      tree.nodeValue_leaf γ (tree.maxKeyLen + 1 - k.length) k hleaf]
  · intro hint
    rw [tree.valueAt_assign_of_mem γ k hk]
    have hlen : k.length ≤ tree.maxKeyLen := tree.len_le_maxKeyLen k hk
    have hfuel : tree.maxKeyLen + 1 - k.length =
        (tree.maxKeyLen - k.length) + 1 := by omega
    rw [hfuel, tree.nodeValue_succ]
    have hne : ¬(tree.childKeys k).isEmpty := by
      simpa [List.isEmpty_iff] using hint
    simp only [hne, if_false, Bool.false_eq_true]
    have hmap : (tree.childKeys k).map
          (tree.nodeValue γ (tree.maxKeyLen - k.length)) =
        (tree.childKeys k).map (fun c =>
          (((tree.assign_mc_value_estimates γ).valueAt c).getD 0)) := by
      refine List.map_congr_left ?_
      intro c hc
      obtain ⟨hck, hcne, hcd⟩ := (tree.mem_childKeys c k).mp hc
      have hclen : c.length = k.length + 1 := child_length hcne hcd
      rw [tree.valueAt_assign_of_mem γ c hck]
      have : tree.maxKeyLen + 1 - c.length = tree.maxKeyLen - k.length := by
        omega
      rw [this, Option.getD_some]
    rw [hmap]

/-- Witness for C1: the theorem applied to the test tree at the leaf
dummy:0:0:2, whose assigned value is its reward. -/
theorem claim_c1_assign_mc_value_estimates_witness :
    (testTree.assign_mc_value_estimates (9/10)).valueAt [0, 0, 2] =
      some (testTree.rewardAt [0, 0, 2]) :=
  (claim_c1_assign_mc_value_estimates testTree (9/10) [0, 0, 2]
    (by decide)).1.1 (by decide)

theorem countTag_stepEvents (tag : CBPoint) : countTag stepEvents tag = 1 := by
  cases tag <;> rfl

theorem countTag_append (l1 l2 : List CBPoint) (tag : CBPoint) :
    countTag (l1 ++ l2) tag = countTag l1 tag + countTag l2 tag :=
  List.countP_append _ _ _

theorem countTag_nil (tag : CBPoint) : countTag [] tag = 0 := rfl

/-! Lemmas about the Rollout Manager loop. -/

theorem runLoop_length_of_no_stop (ag : AgentModel T S O A)
    (env : EnvModel E T O A) :
    ∀ (fuel : Nat) (es : E) (ast : S) (obs : O) (t : Nat),
      (∀ i, i < fuel → stopFlagAt ag env (es, ast, obs) i = false) →
      (RolloutManager.runLoop ag env fuel es ast obs t).1.length = fuel := by
  intro fuel
  induction fuel with
  | zero => intro es ast obs t _; rfl
  | succ f ih =>
    intro es ast obs t h
    have h0 : ((env.step es (ag.get_asv ast obs).action).done
        || (env.step es (ag.get_asv ast obs).action).truncated) = false :=
      h 0 (Nat.succ_pos f)
    simp only [RolloutManager.runLoop, h0]
    simp only [Bool.false_eq_true, if_false, List.length_cons]
    have hrest := ih (env.step es (ag.get_asv ast obs).action).env
      (ag.get_asv ast obs).next_agent_state
      (env.step es (ag.get_asv ast obs).action).obs (t + 1)
      (fun i hi => h (i + 1) (Nat.succ_lt_succ hi))
    rw [hrest]

theorem runLoop_length_of_first_stop (ag : AgentModel T S O A)
    (env : EnvModel E T O A) :
    ∀ (fuel : Nat) (es : E) (ast : S) (obs : O) (t : Nat) (m : Nat),
      m < fuel →
      (∀ i, i < m → stopFlagAt ag env (es, ast, obs) i = false) →
      stopFlagAt ag env (es, ast, obs) m = true →
      (RolloutManager.runLoop ag env fuel es ast obs t).1.length = m + 1 := by
  intro fuel
  induction fuel with
  | zero => intro es ast obs t m hm; omega
  | succ f ih =>
    intro es ast obs t m hm hbefore hstop
    cases m with
    | zero =>
      have h0 : ((env.step es (ag.get_asv ast obs).action).done
          || (env.step es (ag.get_asv ast obs).action).truncated) = true :=
        hstop
      simp only [RolloutManager.runLoop, h0, if_true, List.length_cons,
        List.length_nil]
    | succ m' =>
      have h0 : ((env.step es (ag.get_asv ast obs).action).done
          || (env.step es (ag.get_asv ast obs).action).truncated) = false :=
        hbefore 0 (Nat.succ_pos m')
      simp only [RolloutManager.runLoop, h0]
      simp only [Bool.false_eq_true, if_false, List.length_cons]
      have hrest := ih (env.step es (ag.get_asv ast obs).action).env
        (ag.get_asv ast obs).next_agent_state
        (env.step es (ag.get_asv ast obs).action).obs (t + 1) m'
        (Nat.lt_of_succ_lt_succ hm)
        (fun i hi => hbefore (i + 1) (Nat.succ_lt_succ hi))
        hstop
      rw [hrest]

theorem runLoop_head_state (ag : AgentModel T S O A) (env : EnvModel E T O A)
    (fuel : Nat) (es : E) (ast : S) (obs : O) (t : Nat) (tr : Transition S O A)
    (h : (RolloutManager.runLoop ag env fuel es ast obs t).1.head? = some tr) :
    tr.agent_state = ast ∧ tr.observation = obs := by
  cases fuel with
  | zero => cases h
  | succ f =>
    by_cases hc : ((env.step es (ag.get_asv ast obs).action).done
        || (env.step es (ag.get_asv ast obs).action).truncated) = true
    · simp only [RolloutManager.runLoop, hc, if_true, List.head?_cons,
        Option.some.injEq] at h
      rw [← h]
      exact ⟨rfl, rfl⟩
    · have hcf : ((env.step es (ag.get_asv ast obs).action).done
          || (env.step es (ag.get_asv ast obs).action).truncated) = false :=
        Bool.eq_false_iff.mpr hc
      simp only [RolloutManager.runLoop, hcf, Bool.false_eq_true, if_false,
        List.head?_cons, Option.some.injEq] at h
      rw [← h]
      exact ⟨rfl, rfl⟩

theorem runLoop_chain (ag : AgentModel T S O A) (env : EnvModel E T O A) :
    ∀ (fuel : Nat) (es : E) (ast : S) (obs : O) (t : Nat) (i : Nat)
      (t1 t2 : Transition S O A),
      (RolloutManager.runLoop ag env fuel es ast obs t).1[i]? = some t1 →
      (RolloutManager.runLoop ag env fuel es ast obs t).1[i + 1]? = some t2 →
      t1.next_agent_state = t2.agent_state ∧
        t1.next_observation = t2.observation := by
  intro fuel
  induction fuel with
  | zero => intro es ast obs t i t1 t2 h1; cases h1
  | succ f ih =>
    intro es ast obs t i t1 t2 h1 h2
    by_cases hc : ((env.step es (ag.get_asv ast obs).action).done
        || (env.step es (ag.get_asv ast obs).action).truncated) = true
    · simp only [RolloutManager.runLoop, hc, if_true] at h2
      cases i with
      | zero => cases h2
      | succ j => cases h2
    · have hcf : ((env.step es (ag.get_asv ast obs).action).done
          || (env.step es (ag.get_asv ast obs).action).truncated) = false :=
        Bool.eq_false_iff.mpr hc
      simp only [RolloutManager.runLoop, hcf, Bool.false_eq_true, if_false]
        at h1 h2
      cases i with
      | zero =>
        simp only [List.getElem?_cons_zero, Option.some.injEq] at h1
        simp only [List.getElem?_cons_succ] at h2
        have hh : (RolloutManager.runLoop ag env f
            (env.step es (ag.get_asv ast obs).action).env
            (ag.get_asv ast obs).next_agent_state
            (env.step es (ag.get_asv ast obs).action).obs (t + 1)).1.head? =
            some t2 := by
          rwa [List.head?_eq_getElem?]
        have := runLoop_head_state ag env f _ _ _ _ t2 hh
        rw [← h1]
        exact ⟨this.1.symm, this.2.symm⟩
      | succ j =>
        simp only [List.getElem?_cons_succ] at h1 h2
        exact ih _ _ _ _ j t1 t2 h1 h2

theorem fullCount_eq_range_sum (b : Nat) :
    ∀ d, fullCount b d = ∑ i ∈ Finset.range d, b ^ (i + 1) := by
  intro d
  induction d with
  | zero => simp [fullCount]
  | succ d ih =>
    rw [fullCount, ih, Finset.sum_range_succ']
    rw [Nat.mul_add, Nat.mul_one, Finset.mul_sum]
    simp only [pow_succ, pow_zero, one_mul, pow_one]
    rw [Nat.add_comm]
    congr 1
    refine Finset.sum_congr rfl ?_
    intro i _
    ring

theorem fullCount_eq_sum (b d : Nat) :
    fullCount b d = ∑ i ∈ Finset.Icc 1 d, b ^ i := by
  rw [fullCount_eq_range_sum, ← Nat.Ico_succ_right,
    Finset.sum_Ico_eq_sum_range]
  simp [Nat.add_comm 1]

theorem expandRel_succ (ag : AgentModel T S O A) (env : EnvModel E T O A)
    (b : Nat) (tgt : Option ℚ) (d t0 : Nat) (es : E) (ast : S) (obs : O) :
    TreeSearchRollout.expandRel ag env b tgt (d + 1) t0 es ast obs =
      (let sub := if stopCond ag env tgt es ast obs then ([], [])
        else TreeSearchRollout.expandRel ag env b tgt d (t0 + 1)
          (env.step es (ag.get_asv ast obs).action).env
          (ag.get_asv ast obs).next_agent_state
          (env.step es (ag.get_asv ast obs).action).obs
       ((List.range b).flatMap (fun i =>
          ([i], nodeTrOf ag env t0 es ast obs) ::
            sub.1.map (fun kv => (i :: kv.1, kv.2))),
        (List.range b).flatMap (fun _ => stepEvents ++ sub.2))) := rfl

theorem expandRel_key_ne_nil (ag : AgentModel T S O A)
    (env : EnvModel E T O A) (b : Nat) (tgt : Option ℚ) :
    ∀ (d t0 : Nat) (es : E) (ast : S) (obs : O) kv,
      kv ∈ (TreeSearchRollout.expandRel ag env b tgt d t0 es ast obs).1 →
      kv.1 ≠ [] := by
  intro d
  cases d with
  | zero => intro t0 es ast obs kv h; cases h
  | succ d =>
    intro t0 es ast obs kv h
    rw [expandRel_succ] at h
    simp only [List.mem_flatMap, List.mem_range, List.mem_cons,
      List.mem_map] at h
    obtain ⟨i, _, hcase⟩ := h
    rcases hcase with rfl | ⟨w, _, rfl⟩
    · simp
    · simp

theorem sum_map_const_nat {α : Type} (l : List α) (c : Nat) :
    (l.map (fun _ => c)).sum = l.length * c := by
  induction l with
  | nil => simp
  | cons a l ih => simp [ih, Nat.succ_mul, Nat.add_comm]

theorem countTag_flatMap_const {α : Type} (is : List α) (ev : List CBPoint)
    (tag : CBPoint) :
    countTag (is.flatMap (fun _ => ev)) tag = is.length * countTag ev tag := by
  induction is with
  | nil => simp [countTag]
  | cons i is ih =>
    simp only [List.flatMap_cons, countTag_append, ih, List.length_cons]
    ring

theorem length_flatMap_const_len {β : Type} (is : List Nat)
    (f : Nat → List β) (c : Nat) (h : ∀ i, (f i).length = c) :
    (is.flatMap f).length = is.length * c := by
  induction is with
  | nil => simp
  | cons i is ih =>
    simp only [List.flatMap_cons, List.length_append, ih, List.length_cons, h]
    ring

theorem countP_flatMap_const {α : Type} (is : List Nat) (f : Nat → List α)
    (p : α → Bool) (c : Nat) (h : ∀ i ∈ is, (f i).countP p = c) :
    (is.flatMap f).countP p = is.length * c := by
  induction is with
  | nil => simp
  | cons i is ih =>
    simp only [List.flatMap_cons, List.countP_append, List.length_cons]
    rw [h i (List.mem_cons_self i is),
      ih (fun j hj => h j (List.mem_cons_of_mem i hj))]
    ring

theorem runLoop_events_count (ag : AgentModel T S O A)
    (env : EnvModel E T O A) :
    ∀ (fuel : Nat) (es : E) (ast : S) (obs : O) (t : Nat) (tag : CBPoint),
      countTag (RolloutManager.runLoop ag env fuel es ast obs t).2 tag =
        (RolloutManager.runLoop ag env fuel es ast obs t).1.length := by
  intro fuel
  induction fuel with
  | zero => intro es ast obs t tag; rfl
  | succ f ih =>
    intro es ast obs t tag
    by_cases hc : ((env.step es (ag.get_asv ast obs).action).done
        || (env.step es (ag.get_asv ast obs).action).truncated) = true
    · simp only [RolloutManager.runLoop, hc, if_true, List.length_cons,
        List.length_nil, countTag_stepEvents]
    · have hcf : ((env.step es (ag.get_asv ast obs).action).done
          || (env.step es (ag.get_asv ast obs).action).truncated) = false :=
        Bool.eq_false_iff.mpr hc
      simp only [RolloutManager.runLoop, hcf, Bool.false_eq_true, if_false,
        List.length_cons, countTag_append, countTag_stepEvents, ih]
      omega

theorem expandRel_link (ag : AgentModel T S O A) (env : EnvModel E T O A)
    (b : Nat) (tgt : Option ℚ) :
    ∀ (d t0 : Nat) (es : E) (ast : S) (obs : O),
      (∀ kv ∈ (TreeSearchRollout.expandRel ag env b tgt d t0 es ast obs).1,
        kv.1.length = 1 →
          kv.2.agent_state = ast ∧ kv.2.observation = obs) ∧
      (∀ kv ∈ (TreeSearchRollout.expandRel ag env b tgt d t0 es ast obs).1,
       ∀ kv' ∈ (TreeSearchRollout.expandRel ag env b tgt d t0 es ast obs).1,
       ∀ x : Nat, kv'.1 = kv.1 ++ [x] →
          kv'.2.agent_state = kv.2.next_agent_state ∧
          kv'.2.observation = kv.2.next_observation) := by
  intro d
  induction d with
  | zero =>
    intro t0 es ast obs
    constructor
    · intro kv h
      cases h
    · intro kv h
      cases h
  | succ d ih =>
    intro t0 es ast obs
    by_cases hst : stopCond ag env tgt es ast obs = true
    · rw [expandRel_succ]
      simp only [if_pos hst, List.map_nil]
      constructor
      · intro kv hkv _
        simp only [List.mem_flatMap, List.mem_range, List.mem_cons,
          List.not_mem_nil, or_false] at hkv
        obtain ⟨i, _, rfl⟩ := hkv
        exact ⟨rfl, rfl⟩
      · intro kv hkv kv' hkv' x hx
        simp only [List.mem_flatMap, List.mem_range, List.mem_cons,
          List.not_mem_nil, or_false] at hkv hkv'
        obtain ⟨i, _, rfl⟩ := hkv
        obtain ⟨j, _, rfl⟩ := hkv'
        have := congrArg List.length hx
        simp at this
    · rw [expandRel_succ]
      simp only [if_neg hst]
      have IH := ih (t0 + 1) (env.step es (ag.get_asv ast obs).action).env
        (ag.get_asv ast obs).next_agent_state
        (env.step es (ag.get_asv ast obs).action).obs
      constructor
      · intro kv hkv hlen
        simp only [List.mem_flatMap, List.mem_range, List.mem_cons,
          List.mem_map] at hkv
        obtain ⟨i, _, rfl | ⟨w, hw, rfl⟩⟩ := hkv
        · exact ⟨rfl, rfl⟩
        · simp only [List.length_cons] at hlen
          have hne := expandRel_key_ne_nil ag env b tgt d (t0 + 1) _ _ _ w hw
          have : w.1 = [] := List.length_eq_zero.mp (by omega)
          exact absurd this hne
      · intro kv hkv kv' hkv' x hx
        simp only [List.mem_flatMap, List.mem_range, List.mem_cons,
          List.mem_map] at hkv hkv'
        obtain ⟨i, _, rfl | ⟨w, hw, rfl⟩⟩ := hkv
        · obtain ⟨j, _, rfl | ⟨w', hw', rfl⟩⟩ := hkv'
          · have := congrArg List.length hx
            simp at this
          · simp only [List.cons_append, List.nil_append,
              List.cons.injEq] at hx
            obtain ⟨rfl, hx2⟩ := hx
            have hlen1 : w'.1.length = 1 := by rw [hx2]; rfl
            have := IH.1 w' hw' hlen1
            exact ⟨this.1, this.2⟩
        · obtain ⟨j, _, rfl | ⟨w', hw', rfl⟩⟩ := hkv'
          · have := congrArg List.length hx
            simp at this
          · simp only [List.cons_append, List.cons.injEq] at hx
            obtain ⟨rfl, hx2⟩ := hx
            exact IH.2 w hw w' hw' x hx2

theorem stopCond_false_of_neverStops (ag : AgentModel T S O A)
    (env : EnvModel E T O A) (hns : neverStops env) (es : E) (ast : S)
    (obs : O) : stopCond ag env none es ast obs = false := by
  simp [stopCond, targetMet, (hns es (ag.get_asv ast obs).action).1,
    (hns es (ag.get_asv ast obs).action).2]

theorem expandRel_length_of_no_stop (ag : AgentModel T S O A)
    (env : EnvModel E T O A) (b : Nat) (hns : neverStops env) :
    ∀ (d t0 : Nat) (es : E) (ast : S) (obs : O),
      (TreeSearchRollout.expandRel ag env b none d t0 es ast obs).1.length =
        fullCount b d := by
  intro d
  induction d with
  | zero => intro t0 es ast obs; rfl
  | succ d ih =>
    intro t0 es ast obs
    have hsf : stopCond ag env none es ast obs = false :=
      stopCond_false_of_neverStops ag env hns es ast obs
    rw [expandRel_succ]
    simp only [hsf, Bool.false_eq_true, if_false]
    rw [List.length_flatMap]
    simp only [Function.comp_def]
    have hmap : (List.range b).map (fun i =>
        ((([i], nodeTrOf ag env t0 es ast obs) ::
          (TreeSearchRollout.expandRel ag env b none d (t0 + 1)
            (env.step es (ag.get_asv ast obs).action).env
            (ag.get_asv ast obs).next_agent_state
            (env.step es (ag.get_asv ast obs).action).obs).1.map
              (fun kv => (i :: kv.1, kv.2))).length)) =
        (List.range b).map (fun _ => 1 + fullCount b d) := by
      refine List.map_congr_left ?_
      intro i _
      simp only [List.length_cons, List.length_map, ih]
      omega
    rw [hmap, sum_map_const_nat, List.length_range, fullCount]

theorem expandRel_events_count (ag : AgentModel T S O A)
    (env : EnvModel E T O A) (b : Nat) (tgt : Option ℚ) :
    ∀ (d t0 : Nat) (es : E) (ast : S) (obs : O) (tag : CBPoint),
      countTag
          (TreeSearchRollout.expandRel ag env b tgt d t0 es ast obs).2 tag =
        (TreeSearchRollout.expandRel ag env b tgt d t0 es ast obs).1.length := by
  intro d
  induction d with
  | zero => intro t0 es ast obs tag; rfl
  | succ d ih =>
    intro t0 es ast obs tag
    rw [expandRel_succ]
    by_cases hst : stopCond ag env tgt es ast obs = true
    · simp only [if_pos hst, List.map_nil]
      rw [countTag_flatMap_const, List.length_range, List.length_flatMap]
      simp only [Function.comp_def]
      have hmap : (List.range b).map (fun i =>
          (([([i], nodeTrOf ag env t0 es ast obs)] :
            List (List Nat × Transition S O A)).length)) =
          (List.range b).map (fun _ => 1) :=
        List.map_congr_left (fun i _ => rfl)
      rw [hmap, sum_map_const_nat, List.length_range]
      simp [countTag_append, countTag_stepEvents, countTag_nil]
    · simp only [if_neg hst]
      rw [countTag_flatMap_const, List.length_range, List.length_flatMap]
      simp only [Function.comp_def]
      have hmap : (List.range b).map (fun i =>
          ((([i], nodeTrOf ag env t0 es ast obs) ::
            (TreeSearchRollout.expandRel ag env b tgt d (t0 + 1)
              (env.step es (ag.get_asv ast obs).action).env
              (ag.get_asv ast obs).next_agent_state
              (env.step es (ag.get_asv ast obs).action).obs).1.map
                (fun kv => (i :: kv.1, kv.2))).length)) =
          (List.range b).map (fun _ =>
            1 + (TreeSearchRollout.expandRel ag env b tgt d (t0 + 1)
              (env.step es (ag.get_asv ast obs).action).env
              (ag.get_asv ast obs).next_agent_state
              (env.step es (ag.get_asv ast obs).action).obs).1.length) := by
        refine List.map_congr_left ?_
        intro i _
        simp only [List.length_cons, List.length_map]
        omega
      rw [hmap, sum_map_const_nat, List.length_range]
      rw [countTag_append, countTag_stepEvents, ih]

theorem expandRel_keys_succ (ag : AgentModel T S O A) (env : EnvModel E T O A)
    (b : Nat) (tgt : Option ℚ) (d t0 : Nat) (es : E) (ast : S) (obs : O) :
    (TreeSearchRollout.expandRel ag env b tgt (d + 1) t0 es ast obs).1.map
        Prod.fst =
      (List.range b).flatMap (fun i =>
        [i] :: (((if stopCond ag env tgt es ast obs then ([], [])
          else TreeSearchRollout.expandRel ag env b tgt d (t0 + 1)
            (env.step es (ag.get_asv ast obs).action).env
            (ag.get_asv ast obs).next_agent_state
            (env.step es (ag.get_asv ast obs).action).obs).1.map
              Prod.fst).map (i :: ·))) := by
  rw [expandRel_succ]
  simp [List.map_flatMap, List.map_map, Function.comp_def]

theorem block_head_eq (K : List (List Nat)) (i : Nat) (a : List Nat)
    (h : a ∈ [i] :: K.map (i :: ·)) : a.head? = some i := by
  rcases List.mem_cons.mp h with rfl | hm
  · rfl
  · obtain ⟨k, -, rfl⟩ := List.mem_map.mp hm
    rfl

theorem nodup_blocks (K : List (List Nat)) (hK : K.Nodup)
    (hKne : ∀ k ∈ K, k ≠ []) :
    ∀ is : List Nat, is.Nodup →
      (is.flatMap (fun i => [i] :: K.map (i :: ·))).Nodup := by
  intro is
  induction is with
  | nil => intro _; simp
  | cons i is ih =>
    intro hnd
    rw [List.flatMap_cons, List.nodup_append]
    refine ⟨?_, ih (List.Nodup.of_cons hnd), ?_⟩
    · rw [List.nodup_cons]
      constructor
      · intro hmem
        obtain ⟨k, hk, hke⟩ := List.mem_map.mp hmem
        have hknil : k = [] := by simpa using hke
        exact hKne k hk hknil
      · exact hK.map (fun a b hab => by simpa using hab)
    · intro a ha hmem
      have h1 : a.head? = some i := block_head_eq K i a ha
      obtain ⟨j, hj, hja⟩ := List.mem_flatMap.mp hmem
      have h2 : a.head? = some j := block_head_eq K j a hja
      have hij : i = j := by rw [h1] at h2; simpa using h2
      exact (List.nodup_cons.mp hnd).1 (hij ▸ hj)

theorem expandRel_keys_nodup (ag : AgentModel T S O A)
    (env : EnvModel E T O A) (b : Nat) (tgt : Option ℚ) :
    ∀ (d t0 : Nat) (es : E) (ast : S) (obs : O),
      ((TreeSearchRollout.expandRel ag env b tgt d t0 es ast obs).1.map
        Prod.fst).Nodup := by
  intro d
  induction d with
  | zero => intro t0 es ast obs; simp [TreeSearchRollout.expandRel]
  | succ d ih =>
    intro t0 es ast obs
    rw [expandRel_keys_succ]
    by_cases hst : stopCond ag env tgt es ast obs = true
    · simp only [if_pos hst, List.map_nil]
      exact nodup_blocks [] List.nodup_nil (by simp) (List.range b)
        (List.nodup_range b)
    · simp only [if_neg hst]
      refine nodup_blocks _ (ih (t0 + 1) _ _ _) ?_ (List.range b)
        (List.nodup_range b)
      intro k hk
      obtain ⟨kv, hkv, rfl⟩ := List.mem_map.mp hk
      exact expandRel_key_ne_nil ag env b tgt d (t0 + 1) _ _ _ kv hkv

theorem expandRel_mem_keys_iff (ag : AgentModel T S O A)
    (env : EnvModel E T O A) (b : Nat) (hns : neverStops env) :
    ∀ (d t0 : Nat) (es : E) (ast : S) (obs : O) (k : List Nat),
      k ∈ (TreeSearchRollout.expandRel ag env b none d t0 es ast obs).1.map
          Prod.fst ↔
        (k ≠ [] ∧ k.length ≤ d ∧ ∀ x ∈ k, x < b) := by
  intro d
  induction d with
  | zero =>
    intro t0 es ast obs k
    simp only [TreeSearchRollout.expandRel, List.map_nil, List.not_mem_nil,
      false_iff]
    rintro ⟨h1, h2, -⟩
    exact h1 (List.length_eq_zero.mp (Nat.le_zero.mp h2))
  | succ d ih =>
    intro t0 es ast obs k
    rw [expandRel_keys_succ]
    have hsf := stopCond_false_of_neverStops ag env hns es ast obs
    simp only [hsf, Bool.false_eq_true, if_false]
    simp only [List.mem_flatMap, List.mem_range, List.mem_cons, List.mem_map]
    constructor
    · rintro ⟨i, hib, hk | ⟨k', hk', rfl⟩⟩
      · subst hk
        refine ⟨by simp, by simp, ?_⟩
        intro x hx
        rw [List.mem_singleton.mp hx]
        exact hib
      · obtain ⟨h1, h2, h3⟩ :=
          (ih (t0 + 1) _ _ _ k').mp (List.mem_map.mpr hk')
        refine ⟨by simp, by simp; omega, ?_⟩
        intro x hx
        rcases List.mem_cons.mp hx with rfl | hx'
        · exact hib
        · exact h3 x hx'
    · rintro ⟨h1, h2, h3⟩
      match k, h1 with
      | x :: kt, _ =>
        refine ⟨x, h3 x (List.mem_cons_self x kt), ?_⟩
        cases kt with
        | nil => exact Or.inl rfl
        | cons y kt' =>
          refine Or.inr ?_
          have hsub : (y :: kt') ∈
              (TreeSearchRollout.expandRel ag env b none d (t0 + 1)
                (env.step es (ag.get_asv ast obs).action).env
                (ag.get_asv ast obs).next_agent_state
                (env.step es (ag.get_asv ast obs).action).obs).1.map
                  Prod.fst := by
            refine (ih (t0 + 1) _ _ _ (y :: kt')).mpr ⟨by simp, ?_, ?_⟩
            · simp only [List.length_cons] at h2 ⊢
              omega
            · intro z hz
              exact h3 z (List.mem_cons_of_mem x hz)
          exact ⟨y :: kt', List.mem_map.mp hsub, rfl⟩

theorem expandRel_keys_take (ag : AgentModel T S O A)
    (env : EnvModel E T O A) (b : Nat) (tgt : Option ℚ) :
    ∀ (d t0 : Nat) (es : E) (ast : S) (obs : O) (k : List Nat),
      k ∈ (TreeSearchRollout.expandRel ag env b tgt d t0 es ast obs).1.map
          Prod.fst →
      ∀ n, 0 < n → n ≤ k.length →
        k.take n ∈
          (TreeSearchRollout.expandRel ag env b tgt d t0 es ast obs).1.map
            Prod.fst := by
  intro d
  induction d with
  | zero =>
    intro t0 es ast obs k hk
    simp [TreeSearchRollout.expandRel] at hk
  | succ d ih =>
    intro t0 es ast obs k hk n hn hnk
    rw [expandRel_keys_succ] at hk ⊢
    by_cases hst : stopCond ag env tgt es ast obs = true
    · simp only [if_pos hst, List.map_nil, List.mem_flatMap, List.mem_range,
        List.mem_cons, List.not_mem_nil, or_false] at hk ⊢
      obtain ⟨i, hib, rfl⟩ := hk
      have hn1 : n = 1 := by simp at hnk; omega
      subst hn1
      exact ⟨i, hib, rfl⟩
    · simp only [if_neg hst, List.mem_flatMap, List.mem_range, List.mem_cons,
        List.mem_map] at hk ⊢
      obtain ⟨i, hib, hk1 | ⟨a, ha, hae⟩⟩ := hk
      · subst hk1
        have hn1 : n = 1 := by simp at hnk; omega
        subst hn1
        exact ⟨i, hib, Or.inl rfl⟩
      · subst hae
        cases n with
        | zero => omega
        | succ n' =>
          cases Nat.eq_zero_or_pos n' with
          | inl hz =>
            subst hz
            exact ⟨i, hib, Or.inl rfl⟩
          | inr hpos =>
            have htk : a.take n' ∈
                (TreeSearchRollout.expandRel ag env b tgt d (t0 + 1)
                  (env.step es (ag.get_asv ast obs).action).env
                  (ag.get_asv ast obs).next_agent_state
                  (env.step es (ag.get_asv ast obs).action).obs).1.map
                    Prod.fst := by
              refine ih (t0 + 1) _ _ _ a (List.mem_map.mpr ha) n' hpos ?_
              simp only [List.length_cons] at hnk
              omega
            exact ⟨i, hib, Or.inr ⟨a.take n', List.mem_map.mp htk, rfl⟩⟩

theorem expandRel_countP_len (ag : AgentModel T S O A)
    (env : EnvModel E T O A) (b : Nat) (hns : neverStops env) :
    ∀ (d m t0 : Nat) (es : E) (ast : S) (obs : O),
      ((TreeSearchRollout.expandRel ag env b none d t0 es ast obs).1.map
          Prod.fst).countP (fun k => decide (k.length = m + 1)) =
        if m + 1 ≤ d then b ^ (m + 1) else 0 := by
  intro d
  induction d with
  | zero =>
    intro m t0 es ast obs
    simp [TreeSearchRollout.expandRel]
  | succ d ih =>
    intro m t0 es ast obs
    rw [expandRel_keys_succ]
    have hsf := stopCond_false_of_neverStops ag env hns es ast obs
    simp only [hsf, Bool.false_eq_true, if_false]
    have hsubne : ∀ k ∈ (TreeSearchRollout.expandRel ag env b none d (t0 + 1)
        (env.step es (ag.get_asv ast obs).action).env
        (ag.get_asv ast obs).next_agent_state
        (env.step es (ag.get_asv ast obs).action).obs).1.map Prod.fst,
        k ≠ [] := by
      intro k hk
      obtain ⟨kv, hkv, rfl⟩ := List.mem_map.mp hk
      exact expandRel_key_ne_nil ag env b none d (t0 + 1) _ _ _ kv hkv
    cases m with
    | zero =>
      rw [countP_flatMap_const _ _ _ 1 ?_, List.length_range]
      · simp
      · intro i _
        rw [List.countP_cons, List.countP_map]
        have hz : ((TreeSearchRollout.expandRel ag env b none d (t0 + 1)
            (env.step es (ag.get_asv ast obs).action).env
            (ag.get_asv ast obs).next_agent_state
            (env.step es (ag.get_asv ast obs).action).obs).1.map
              Prod.fst).countP
            ((fun k => decide (k.length = 0 + 1)) ∘ (i :: ·)) = 0 := by
          rw [List.countP_eq_zero]
          intro k hk
          have := hsubne k hk
          simp [Function.comp]
          intro hlen
          exact this hlen
        rw [hz]
        simp
    | succ m' =>
      rw [countP_flatMap_const _ _ _
        (if m' + 1 ≤ d then b ^ (m' + 1) else 0) ?_, List.length_range]
      · by_cases hle : m' + 1 ≤ d
        · rw [if_pos hle, if_pos (by omega)]
          rw [pow_succ]
          ring
        · rw [if_neg hle, if_neg (by omega)]
          simp
      · intro i _
        rw [List.countP_cons, List.countP_map]
        have hcongr : ((TreeSearchRollout.expandRel ag env b none d (t0 + 1)
            (env.step es (ag.get_asv ast obs).action).env
            (ag.get_asv ast obs).next_agent_state
            (env.step es (ag.get_asv ast obs).action).obs).1.map
              Prod.fst).countP
            ((fun k => decide (k.length = m' + 1 + 1)) ∘ (i :: ·)) =
            ((TreeSearchRollout.expandRel ag env b none d (t0 + 1)
            (env.step es (ag.get_asv ast obs).action).env
            (ag.get_asv ast obs).next_agent_state
            (env.step es (ag.get_asv ast obs).action).obs).1.map
              Prod.fst).countP (fun k => decide (k.length = m' + 1)) := by
          refine List.countP_congr ?_
          intro k _
          simp [Function.comp]
        rw [hcongr, ih m' (t0 + 1)]
        simp

theorem getElem?_filterMap_all_some {α β : Type} (f : α → Option β) :
    ∀ (L : List α), (∀ x ∈ L, (f x).isSome) →
      ∀ i : Nat, (L.filterMap f)[i]? = L[i]?.bind f := by
  intro L
  induction L with
  | nil => intro _ i; simp
  | cons a L ih =>
    intro h i
    obtain ⟨c, hc⟩ := Option.isSome_iff_exists.mp (h a (List.mem_cons_self a L))
    rw [List.filterMap_cons_some hc]
    cases i with
    | zero => simp [hc]
    | succ j =>
      simp only [List.getElem?_cons_succ]
      exact ih (fun x hx => h x (List.mem_cons_of_mem a hx)) j

theorem length_filterMap_all_some {α β : Type} (f : α → Option β) :
    ∀ (L : List α), (∀ x ∈ L, (f x).isSome) →
      (L.filterMap f).length = L.length := by
  intro L
  induction L with
  | nil => intro _; rfl
  | cons a L ih =>
    intro h
    obtain ⟨c, hc⟩ := Option.isSome_iff_exists.mp (h a (List.mem_cons_self a L))
    rw [List.filterMap_cons_some hc, List.length_cons, List.length_cons,
      ih (fun x hx => h x (List.mem_cons_of_mem a hx))]

theorem initialSegs_getElem? (k : List Nat) (i : Nat) (h : i < k.length) :
    (initialSegs k)[i]? = some (k.take (i + 1)) := by
  unfold initialSegs
  rw [List.getElem?_map, List.getElem?_range h]
  rfl

theorem initialSegs_length (k : List Nat) :
    (initialSegs k).length = k.length := by
  simp [initialSegs]

theorem initialSegs_mem (k p : List Nat) (h : p ∈ initialSegs k) :
    ∃ i, i < k.length ∧ p = k.take (i + 1) := by
  unfold initialSegs at h
  obtain ⟨i, hi, rfl⟩ := List.mem_map.mp h
  exact ⟨i, List.mem_range.mp hi, rfl⟩

theorem TransitionTree.lookup_eq_some_mem (tree : TransitionTree S O A)
    (k : List Nat) (t : Transition S O A) (h : tree.lookup k = some t) :
    (k, t) ∈ tree.nodes := by
  unfold TransitionTree.lookup at h
  obtain ⟨kv, hkv, hsnd⟩ := Option.map_eq_some'.mp h
  have hmem := List.mem_of_find?_eq_some hkv
  have hbeq := List.find?_some hkv
  have hk : kv.1 = k := by simpa using hbeq
  have : kv = (k, t) := by
    cases kv
    simp only at hk hsnd
    rw [hk, hsnd]
  rwa [this] at hmem

/-- In any tree produced by `sample_tree`, consecutive steps of every
reconstructed trajectory chain their states and observations. -/
theorem sample_tree_traj_chain (ag : AgentModel T S O A)
    (env : EnvModel E T O A) (e0 : E) (root : String) (dep b : Nat)
    (tgt : Option ℚ) (traj : Trajectory S O A)
    (htraj : traj ∈
      (TreeSearchRollout.sample_tree ag env e0 root dep b tgt).1.get_trajectories)
    (i : Nat) (t1 t2 : Transition S O A)
    (h1 : traj.steps[i]? = some t1) (h2 : traj.steps[i + 1]? = some t2) :
    t1.next_agent_state = t2.agent_state ∧
      t1.next_observation = t2.observation := by
  set tree := (TreeSearchRollout.sample_tree ag env e0 root dep b tgt).1
    with htree
  obtain ⟨l, hl, rfl⟩ := List.mem_map.mp htraj
  have hlk : l ∈ tree.keys := List.mem_of_mem_filter hl
  have hall : ∀ p ∈ initialSegs l, (tree.lookup p).isSome := by
    intro p hp
    obtain ⟨j, hj, rfl⟩ := initialSegs_mem l p hp
    have : l.take (j + 1) ∈ tree.keys :=
      expandRel_keys_take ag env b tgt dep 0 _ _ _ l hlk (j + 1)
        (Nat.succ_pos j) hj
    exact (tree.mem_keys_iff _).mp this
  simp only at h1 h2
  rw [getElem?_filterMap_all_some tree.lookup (initialSegs l) hall i] at h1
  rw [getElem?_filterMap_all_some tree.lookup (initialSegs l) hall (i + 1)]
    at h2
  obtain ⟨p1, hp1, hl1⟩ := Option.bind_eq_some.mp h1
  obtain ⟨p2, hp2, hl2⟩ := Option.bind_eq_some.mp h2
  have hi1 : i + 1 < (initialSegs l).length := by
    by_contra hcon
    rw [List.getElem?_eq_none (Nat.le_of_not_lt hcon)] at hp2
    cases hp2
  rw [initialSegs_length] at hi1
  have hpe1 : p1 = l.take (i + 1) := by
    rw [initialSegs_getElem? l i (by omega)] at hp1
    exact (Option.some.inj hp1).symm
  have hpe2 : p2 = l.take (i + 2) := by
    rw [initialSegs_getElem? l (i + 1) hi1] at hp2
    exact (Option.some.inj hp2).symm
  subst hpe1 hpe2
  have hx : l[i + 1]? = some l[i + 1] := List.getElem?_eq_getElem hi1
  have hsplit : l.take (i + 2) = l.take (i + 1) ++ [l[i + 1]] := by
    rw [List.take_succ, hx]
    rfl
  have hm1 : (l.take (i + 1), t1) ∈ tree.nodes :=
    tree.lookup_eq_some_mem _ t1 hl1
  have hm2 : (l.take (i + 2), t2) ∈ tree.nodes :=
    tree.lookup_eq_some_mem _ t2 hl2
  have hlink := (expandRel_link ag env b tgt dep 0 (env.reset e0).1
    (ag.init_state (env.reset e0).2.2) (env.reset e0).2.1).2
  have hnodes : tree.nodes =
      (TreeSearchRollout.expandRel ag env b tgt dep 0 (env.reset e0).1
        (ag.init_state (env.reset e0).2.2) (env.reset e0).2.1).1 := rfl
  rw [hnodes] at hm1 hm2
  have := hlink (l.take (i + 1), t1) hm1 (l.take (i + 2), t2) hm2 l[i + 1]
    hsplit
  exact ⟨this.1.symm, this.2.symm⟩

theorem TransitionTree.childKeys_eq_nil_iff (tree : TransitionTree S O A)
    (k : List Nat) :
    tree.childKeys k = [] ↔ ∀ x : Nat, (k ++ [x]) ∉ tree.keys := by
  unfold TransitionTree.childKeys
  rw [List.filter_eq_nil_iff]
  constructor
  · intro h x hmem
    have := h (k ++ [x]) hmem
    simp only [decide_eq_true_eq, not_and] at this
    exact this (by simp) (by simp)
  · intro h c hc
    simp only [decide_eq_true_eq, not_and]
    intro hcne hcd
    have hsplit : c.dropLast ++ [c.getLast hcne] = c :=
      List.dropLast_append_getLast hcne
    rw [hcd] at hsplit
    have hc' : k ++ [c.getLast hcne] ∈ tree.keys := by rw [hsplit]; exact hc
    exact h (c.getLast hcne) hc'

theorem sample_tree_keys_eq (ag : AgentModel T S O A) (env : EnvModel E T O A)
    (e0 : E) (root : String) (d b : Nat) (tgt : Option ℚ) :
    (TreeSearchRollout.sample_tree ag env e0 root d b tgt).1.keys =
      (TreeSearchRollout.expandRel ag env b tgt d 0 (env.reset e0).1
        (ag.init_state (env.reset e0).2.2) (env.reset e0).2.1).1.map
        Prod.fst := rfl

theorem sample_tree_mem_keys_iff (ag : AgentModel T S O A)
    (env : EnvModel E T O A) (b : Nat) (hns : neverStops env) (e0 : E)
    (root : String) (d : Nat) (k : List Nat) :
    k ∈ (TreeSearchRollout.sample_tree ag env e0 root d b none).1.keys ↔
      (k ≠ [] ∧ k.length ≤ d ∧ ∀ x ∈ k, x < b) := by
  rw [sample_tree_keys_eq]
  exact expandRel_mem_keys_iff ag env b hns d 0 _ _ _ k

theorem sample_tree_b_pos_of_mem (ag : AgentModel T S O A)
    (env : EnvModel E T O A) (b : Nat) (hns : neverStops env) (e0 : E)
    (root : String) (d : Nat) (k : List Nat)
    (hk : k ∈ (TreeSearchRollout.sample_tree ag env e0 root d b none).1.keys) :
    0 < b := by
  obtain ⟨h1, -, h3⟩ :=
    (sample_tree_mem_keys_iff ag env b hns e0 root d k).mp hk
  match k, h1 with
  | y :: kt, _ =>
    have := h3 y (List.mem_cons_self y kt)
    omega

theorem sample_tree_leaf_iff (ag : AgentModel T S O A)
    (env : EnvModel E T O A) (b : Nat) (hns : neverStops env) (e0 : E)
    (root : String) (d : Nat) (hd : 1 ≤ d) (k : List Nat) :
    k ∈ (TreeSearchRollout.sample_tree ag env e0 root d b none).1.leafKeys ↔
      (k.length = d ∧ ∀ x ∈ k, x < b) := by
  unfold TransitionTree.leafKeys
  rw [List.mem_filter]
  constructor
  · rintro ⟨hk, hempty⟩
    obtain ⟨h1, h2, h3⟩ :=
      (sample_tree_mem_keys_iff ag env b hns e0 root d k).mp hk
    refine ⟨?_, h3⟩
    by_contra hne
    have hlt : k.length < d := by omega
    have hb : 0 < b := sample_tree_b_pos_of_mem ag env b hns e0 root d k hk
    have hchild : (k ++ [0]) ∈
        (TreeSearchRollout.sample_tree ag env e0 root d b none).1.keys := by
      refine (sample_tree_mem_keys_iff ag env b hns e0 root d _).mpr
        ⟨by simp, by simp; omega, ?_⟩
      intro x hx
      rcases List.mem_append.mp hx with hx' | hx'
      · exact h3 x hx'
      · rw [List.mem_singleton.mp hx']
        exact hb
    rw [List.isEmpty_iff] at hempty
    exact ((TreeSearchRollout.sample_tree ag env e0 root d b
        none).1.childKeys_eq_nil_iff k).mp hempty 0 hchild
  · rintro ⟨h1, h2⟩
    have hne : k ≠ [] := by
      intro hnil
      rw [hnil] at h1
      simp at h1
      omega
    have hk : k ∈ (TreeSearchRollout.sample_tree ag env e0 root d b
        none).1.keys :=
      (sample_tree_mem_keys_iff ag env b hns e0 root d k).mpr
        ⟨hne, le_of_eq h1, h2⟩
    refine ⟨hk, ?_⟩
    rw [List.isEmpty_iff]
    rw [(TreeSearchRollout.sample_tree ag env e0 root d b
        none).1.childKeys_eq_nil_iff k]
    intro x hmem
    obtain ⟨-, hlen, -⟩ :=
      (sample_tree_mem_keys_iff ag env b hns e0 root d _).mp hmem
    simp only [List.length_append, List.length_singleton, h1] at hlen
    omega

theorem sample_tree_leaf_count (ag : AgentModel T S O A)
    (env : EnvModel E T O A) (b : Nat) (hns : neverStops env) (e0 : E)
    (root : String) (d : Nat) (hd : 1 ≤ d) :
    (TreeSearchRollout.sample_tree ag env e0 root d b
        none).1.leafKeys.length = b ^ d := by
  unfold TransitionTree.leafKeys
  rw [← List.countP_eq_length_filter]
  have hcongr : (TreeSearchRollout.sample_tree ag env e0 root d b
      none).1.keys.countP
        (fun k => ((TreeSearchRollout.sample_tree ag env e0 root d b
          none).1.childKeys k).isEmpty) =
      (TreeSearchRollout.sample_tree ag env e0 root d b none).1.keys.countP
        (fun k => decide (k.length = d)) := by
    refine List.countP_congr ?_
    intro k hk
    have hleaf := sample_tree_leaf_iff ag env b hns e0 root d hd k
    unfold TransitionTree.leafKeys at hleaf
    rw [List.mem_filter] at hleaf
    obtain ⟨-, -, h3⟩ :=
      (sample_tree_mem_keys_iff ag env b hns e0 root d k).mp hk
    constructor
    · intro hemp
      have := hleaf.mp ⟨hk, hemp⟩
      simp [this.1]
    · intro hlen
      exact (hleaf.mpr ⟨by simpa using hlen, h3⟩).2
  rw [hcongr, sample_tree_keys_eq]
  obtain ⟨d', rfl⟩ : ∃ d', d = d' + 1 := ⟨d - 1, by omega⟩
  rw [expandRel_countP_len ag env b hns (d' + 1) d' 0]
  simp

/-- Claim C2: for a tree produced by `sample_tree` with branching factor `b`
and `max_depth` `d` (at least 1) and no early stopping (environment never
signals done or truncated, no `target_reward`): `get_trajectories()` returns
exactly `b ^ d` trajectories; the tree holds exactly the sum of `b ^ i` for
`i` from 1 to `d` transitions; the trajectory ids are the full ids of the
leaf paths, which are collision-free and are exactly the `b ^ d` sequences of
branch indices below `b` of length `d`; and every node above the bottom level
has as children exactly the branch indices 0 through `b - 1`. -/
theorem claim_c2_tree_search_shape (ag : AgentModel T S O A)
    (env : EnvModel E T O A) (b : Nat) (hns : neverStops env) (e0 : E)
    (root : String) (d : Nat) (hd : 1 ≤ d) (tree : TransitionTree S O A)
    (htree : tree =
      (TreeSearchRollout.sample_tree ag env e0 root d b none).1) :
    tree.get_trajectories.length = b ^ d ∧
    tree.nodes.length = ∑ i ∈ Finset.Icc 1 d, b ^ i ∧
    tree.get_trajectories.map Trajectory.traj_id =
      tree.leafKeys.map tree.fullId ∧
    tree.leafKeys.Nodup ∧
    (∀ l : List Nat, l ∈ tree.leafKeys ↔ (l.length = d ∧ ∀ x ∈ l, x < b)) ∧
    (∀ k : List Nat, (k = [] ∨ k ∈ tree.keys) → k.length < d →
      ∀ j : Nat, ((k ++ [j]) ∈ tree.keys ↔ j < b)) := by
  subst htree
  refine ⟨?_, ?_, ?_, ?_, ?_, ?_⟩
  · unfold TransitionTree.get_trajectories
    rw [List.length_map]
    exact sample_tree_leaf_count ag env b hns e0 root d hd
  · have heq : (TreeSearchRollout.sample_tree ag env e0 root d b
        none).1.nodes =
        (TreeSearchRollout.expandRel ag env b none d 0 (env.reset e0).1
          (ag.init_state (env.reset e0).2.2) (env.reset e0).2.1).1 := rfl
    rw [heq, expandRel_length_of_no_stop ag env b hns d 0,
      fullCount_eq_sum]
  · simp [TransitionTree.get_trajectories, List.map_map]
  · refine List.Nodup.filter _ ?_
    rw [sample_tree_keys_eq]
    exact expandRel_keys_nodup ag env b none d 0 _ _ _
  · exact sample_tree_leaf_iff ag env b hns e0 root d hd
  · intro k hk hlen j
    constructor
    · intro hmem
      obtain ⟨-, -, h3⟩ :=
        (sample_tree_mem_keys_iff ag env b hns e0 root d _).mp hmem
      exact h3 j (List.mem_append.mpr (Or.inr (List.mem_singleton.mpr rfl)))
    · intro hj
      refine (sample_tree_mem_keys_iff ag env b hns e0 root d _).mpr
        ⟨by simp, by simp; omega, ?_⟩
      intro x hx
      rcases List.mem_append.mp hx with hx' | hx'
      · rcases hk with rfl | hk'
        · cases hx'
        · obtain ⟨-, -, h3⟩ :=
            (sample_tree_mem_keys_iff ag env b hns e0 root d _).mp hk'
          exact h3 x hx'
      · rw [List.mem_singleton.mp hx']
        exact hj

/-- Witness for C2: branching factor 2 and depth 3 over the trivial
never-stopping environment yield exactly 2 ^ 3 = 8 trajectories. -/
theorem claim_c2_tree_search_shape_witness :
    ((TreeSearchRollout.sample_tree unitAgent unitEnv () "root" 3 2
      none).1).get_trajectories.length = 2 ^ 3 :=
  (claim_c2_tree_search_shape unitAgent unitEnv 2
    (fun _ _ => ⟨rfl, rfl⟩) () "root" 3 (by decide) _ rfl).1

/-- When the first step already stops expansion (for instance because its
reward meets the target), a tree search of any positive depth produces
exactly one single-transition branch per branch index, and nothing below. -/
theorem sample_tree_early_stop_shape (ag : AgentModel T S O A)
    (env : EnvModel E T O A) (b d : Nat) (tgt : Option ℚ) (e0 : E)
    (root : String) (hd : 1 ≤ d)
    (hstop : stopCond ag env tgt (env.reset e0).1
      (ag.init_state (env.reset e0).2.2) (env.reset e0).2.1 = true) :
    (∀ k ∈ (TreeSearchRollout.sample_tree ag env e0 root d b tgt).1.keys,
      k.length = 1) ∧
    (TreeSearchRollout.sample_tree ag env e0 root d b tgt).1.nodes.length =
      b ∧
    (TreeSearchRollout.sample_tree ag env e0 root d b
      tgt).1.get_trajectories.length = b ∧
    (∀ traj ∈ (TreeSearchRollout.sample_tree ag env e0 root d b
      tgt).1.get_trajectories, traj.steps.length = 1) := by
  obtain ⟨d', rfl⟩ : ∃ d', d = d' + 1 := ⟨d - 1, by omega⟩
  have hnodes : (TreeSearchRollout.sample_tree ag env e0 root (d' + 1) b
      tgt).1.nodes =
      (List.range b).map (fun i =>
        ([i], nodeTrOf ag env 0 (env.reset e0).1
          (ag.init_state (env.reset e0).2.2) (env.reset e0).2.1)) := by
    have h1 : (TreeSearchRollout.sample_tree ag env e0 root (d' + 1) b
        tgt).1.nodes =
        (TreeSearchRollout.expandRel ag env b tgt (d' + 1) 0 (env.reset e0).1
          (ag.init_state (env.reset e0).2.2) (env.reset e0).2.1).1 := rfl
    rw [h1, expandRel_succ]
    simp only [if_pos hstop, List.map_nil]
    exact List.flatMap_pure_eq_map _ _
  have hkeys : (TreeSearchRollout.sample_tree ag env e0 root (d' + 1) b
      tgt).1.keys = (List.range b).map (fun i => [i]) := by
    unfold TransitionTree.keys
    rw [hnodes, List.map_map]
    rfl
  have hlen1 : ∀ k ∈ (TreeSearchRollout.sample_tree ag env e0 root (d' + 1) b
      tgt).1.keys, k.length = 1 := by
    intro k hk
    rw [hkeys] at hk
    obtain ⟨i, -, rfl⟩ := List.mem_map.mp hk
    rfl
  have hleaf : (TreeSearchRollout.sample_tree ag env e0 root (d' + 1) b
      tgt).1.leafKeys = (TreeSearchRollout.sample_tree ag env e0 root
        (d' + 1) b tgt).1.keys := by
    unfold TransitionTree.leafKeys
    refine List.filter_eq_self.mpr ?_
    intro k hk
    rw [List.isEmpty_iff,
      (TreeSearchRollout.sample_tree ag env e0 root (d' + 1) b
        tgt).1.childKeys_eq_nil_iff]
    intro x hmem
    have h2 := hlen1 (k ++ [x]) hmem
    have h1 := hlen1 k hk
    simp only [List.length_append, List.length_singleton] at h2
    omega
  refine ⟨hlen1, ?_, ?_, ?_⟩
  · rw [hnodes, List.length_map, List.length_range]
  · unfold TransitionTree.get_trajectories
    rw [List.length_map, hleaf, hkeys, List.length_map, List.length_range]
  · intro traj htraj
    unfold TransitionTree.get_trajectories at htraj
    obtain ⟨l, hl, rfl⟩ := List.mem_map.mp htraj
    rw [hleaf] at hl
    have hl1 := hlen1 l hl
    simp only
    rw [length_filterMap_all_some, initialSegs_length, hl1]
    intro p hp
    obtain ⟨j, hj, rfl⟩ := initialSegs_mem l p hp
    rw [hl1] at hj
    have hj0 : j = 0 := by omega
    subst hj0
    have : l.take 1 = l := by
      rw [← hl1]
      exact List.take_length l
    rw [this]
    exact ((TreeSearchRollout.sample_tree ag env e0 root (d' + 1) b
      tgt).1.mem_keys_iff l).mp hl

/-- Counterexample for C3: the branch's first-step reward meets the target,
each branch contributes exactly one transition, but the trajectory count is
not strictly less than b ^ d (it equals 2 = 2 ^ 1). -/
theorem claim_c3_counterexample :
    (1 : ℚ) ≤ (EnvModel.step unitEnvRewardOne ()
      (ASVResult.action (AgentModel.get_asv unitAgent
        (AgentModel.init_state unitAgent ()) ()))).reward ∧
    ¬((TreeSearchRollout.sample_tree unitAgent unitEnvRewardOne () "root" 1 2
      (some 1)).1.get_trajectories.length < 2 ^ 1) := by
  constructor
  · exact le_of_eq rfl
  · have hstop : stopCond unitAgent unitEnvRewardOne (some 1) ()
        () () = true := rfl
    have hshape := sample_tree_early_stop_shape unitAgent unitEnvRewardOne 2 1
      (some 1) () "root" (by omega) hstop
    rw [hshape.2.2.1]
    omega

/-- Claim C3 (amended): with `target_reward` set, a first-step reward meeting
the target, branching factor at least 2 and max_depth at least 2, every
branch contributes exactly one Transition and no descendants (each resulting
trajectory has exactly one step), and the trajectory count is strictly less
than `b ^ d`.  The amendment adds the bounds `2 ≤ b` and `2 ≤ d`: at `b = 1`
or `d = 1` the early-stopped tree still has exactly `b ^ d` trajectories, so
the strict inequality of the original claim fails there. -/
theorem claim_c3_early_stopping (ag : AgentModel T S O A)
    (env : EnvModel E T O A) (b d : Nat) (g : ℚ) (e0 : E) (root : String)
    (hb : 2 ≤ b) (hd : 2 ≤ d)
    (hr : g ≤ (env.step (env.reset e0).1
      (ag.get_asv (ag.init_state (env.reset e0).2.2)
        (env.reset e0).2.1).action).reward)
    (tree : TransitionTree S O A)
    (htree : tree =
      (TreeSearchRollout.sample_tree ag env e0 root d b (some g)).1) :
    (∀ k ∈ tree.keys, k.length = 1) ∧
    tree.nodes.length = b ∧
    (∀ traj ∈ tree.get_trajectories, traj.steps.length = 1) ∧
    tree.get_trajectories.length = b ∧
    tree.get_trajectories.length < b ^ d := by
  subst htree
  have hstop : stopCond ag env (some g) (env.reset e0).1
      (ag.init_state (env.reset e0).2.2) (env.reset e0).2.1 = true := by
    simp only [stopCond, targetMet, Bool.or_eq_true, decide_eq_true_eq]
    right
    exact hr
  have hshape := sample_tree_early_stop_shape ag env b d (some g) e0 root
    (by omega) hstop
  refine ⟨hshape.1, hshape.2.1, hshape.2.2.2, hshape.2.2.1, ?_⟩
  rw [hshape.2.2.1]
  calc b = b ^ 1 := (pow_one b).symm
  _ < b ^ d := Nat.pow_lt_pow_right (by omega) (by omega)

/-- Witness for the amended C3: branching factor 2, depth 2, reward 1 against
target 1 gives 2 single-step trajectories, strictly fewer than 2 ^ 2 = 4. -/
theorem claim_c3_early_stopping_witness :
    (TreeSearchRollout.sample_tree unitAgent unitEnvRewardOne () "root" 2 2
      (some 1)).1.get_trajectories.length < 2 ^ 2 :=
  (claim_c3_early_stopping unitAgent unitEnvRewardOne 2 2 1 () "root"
    (by omega) (by omega) (le_refl (1 : ℚ)) _ rfl).2.2.2.2

/-- Claim C4: for every trajectory produced by a driver — a linear rollout or
a root-to-leaf path of a tree search — consecutive steps chain:
`steps[i].next_agent_state` equals `steps[i+1].agent_state` and
`steps[i].next_observation` equals `steps[i+1].observation`; each step owns
its own state snapshot by construction. -/
theorem claim_c4_state_snapshot_chaining (ag : AgentModel T S O A)
    (env : EnvModel E T O A) :
    (∀ (e0 : E) (max_steps : Nat) (tid : String) (i : Nat)
      (t1 t2 : Transition S O A),
      (RolloutManager.sample_trajectory ag env e0 max_steps
        tid).1.steps[i]? = some t1 →
      (RolloutManager.sample_trajectory ag env e0 max_steps
        tid).1.steps[i + 1]? = some t2 →
      t1.next_agent_state = t2.agent_state ∧
        t1.next_observation = t2.observation) ∧
    (∀ (e0 : E) (root : String) (d b : Nat) (tgt : Option ℚ)
      (traj : Trajectory S O A),
      traj ∈ (TreeSearchRollout.sample_tree ag env e0 root d b
        tgt).1.get_trajectories →
      ∀ (i : Nat) (t1 t2 : Transition S O A),
        traj.steps[i]? = some t1 → traj.steps[i + 1]? = some t2 →
        t1.next_agent_state = t2.agent_state ∧
          t1.next_observation = t2.observation) := by
  constructor
  · intro e0 ms tid i t1 t2 h1 h2
    exact runLoop_chain ag env ms (env.reset e0).1
      (ag.init_state (env.reset e0).2.2) (env.reset e0).2.1 0 i t1 t2 h1 h2
  · exact fun e0 root d b tgt traj htraj i t1 t2 h1 h2 =>
      sample_tree_traj_chain ag env e0 root d b tgt traj htraj i t1 t2 h1 h2

/-- Witness for C4: in the deterministic counting rollout, step 0 hands its
post-state to step 1. -/
theorem claim_c4_state_snapshot_chaining_witness :
    ({ timestep := 0, agent_state := 0, next_agent_state := 1,
       observation := 0, next_observation := 1, action := (), reward := 0,
       done := false, truncated := false, value := none } :
        Transition Nat Nat Unit).next_agent_state =
      ({ timestep := 1, agent_state := 1, next_agent_state := 2,
         observation := 1, next_observation := 2, action := (), reward := 0,
         done := false, truncated := false, value := none } :
          Transition Nat Nat Unit).agent_state ∧
    ({ timestep := 0, agent_state := 0, next_agent_state := 1,
       observation := 0, next_observation := 1, action := (), reward := 0,
       done := false, truncated := false, value := none } :
        Transition Nat Nat Unit).next_observation =
      ({ timestep := 1, agent_state := 1, next_agent_state := 2,
         observation := 1, next_observation := 2, action := (), reward := 0,
         done := false, truncated := false, value := none } :
          Transition Nat Nat Unit).observation :=
  (claim_c4_state_snapshot_chaining countingAgent countingEnv).1 0 10 "t" 0
    _ _ rfl rfl

theorem rounds_events_count (ag : AgentModel T S O A)
    (env : EnvModel E T O A) (scoring_fn : List (Transition S O A) → ℚ)
    (beam_width spb : Nat) :
    ∀ (fuel : Nat) (live finished : List (Beam E S O A)) (tag : CBPoint),
      countTag (BeamSearchRollout.rounds ag env scoring_fn beam_width spb
          fuel live finished).2.2 tag =
        (BeamSearchRollout.rounds ag env scoring_fn beam_width spb fuel live
          finished).2.1.length := by
  intro fuel
  induction fuel with
  | zero => intro live finished tag; rfl
  | succ f ih =>
    intro live finished tag
    by_cases hl : live.isEmpty = true
    · simp only [BeamSearchRollout.rounds, hl, if_true]
      rfl
    · simp only [BeamSearchRollout.rounds, hl, Bool.false_eq_true, if_false]
      rw [countTag_append, countTag_flatMap_const, countTag_stepEvents,
        List.length_append, ih]
      simp

theorem rollout_batch_events_count (ag : AgentModel T S O A)
    (env : EnvModel E T O A) (k : Nat) (tag : CBPoint) :
    ∀ (ps : List (Nat × E)),
      countTag ((ps.map (fun p => RolloutManager.sample_trajectory ag env p.2
          k (toString p.1))).flatMap Prod.snd) tag =
        (((ps.map (fun p => RolloutManager.sample_trajectory ag env p.2 k
          (toString p.1))).map Prod.fst).map
            (fun tr => tr.steps.length)).sum := by
  intro ps
  induction ps with
  | nil => rfl
  | cons p ps ih =>
    simp only [List.map_cons, List.flatMap_cons, countTag_append,
      List.sum_cons, ih]
    congr 1
    exact runLoop_events_count ag env k (env.reset p.2).1
      (ag.init_state (env.reset p.2).2.2) (env.reset p.2).2.1 0 tag

theorem beam_batch_events_count (ag : AgentModel T S O A)
    (env : EnvModel E T O A) (scoring_fn : List (Transition S O A) → ℚ)
    (bw spb k : Nat) (tag : CBPoint) :
    ∀ (ps : List (Nat × E)),
      countTag ((ps.map (fun p =>
          let r0 := env.reset p.2
          let s0 := ag.init_state r0.2.2
          let beam0 : Beam E S O A :=
            { env := r0.1, agent_state := s0, obs := r0.2.1, steps := [],
              terminal := false }
          let r := BeamSearchRollout.rounds ag env scoring_fn bw spb k
            [beam0] []
          (r.1.map (fun bm =>
              ({ traj_id := toString p.1, steps := bm.steps } :
                Trajectory S O A)),
            r.2.1, r.2.2))).flatMap (fun x => x.2.2)) tag =
        ((ps.map (fun p =>
          let r0 := env.reset p.2
          let s0 := ag.init_state r0.2.2
          let beam0 : Beam E S O A :=
            { env := r0.1, agent_state := s0, obs := r0.2.1, steps := [],
              terminal := false }
          let r := BeamSearchRollout.rounds ag env scoring_fn bw spb k
            [beam0] []
          (r.1.map (fun bm =>
              ({ traj_id := toString p.1, steps := bm.steps } :
                Trajectory S O A)),
            r.2.1, r.2.2))).flatMap (fun x => x.2.1)).length := by
  intro ps
  induction ps with
  | nil => rfl
  | cons p ps ih =>
    simp only [List.map_cons, List.flatMap_cons, countTag_append,
      List.length_append, ih]
    congr 1
    exact rounds_events_count ag env scoring_fn bw spb k _ [] tag

/-- Claim C5: for every driver — RolloutManager, TreeSearchRollout,
BeamSearchRollout — each of the four callback notification points fires
exactly once per Transition produced during the sampling call; in particular
a tree search with branching factor 2 and depth 3 fires each point exactly
14 times. -/
theorem claim_c5_callbacks_once_per_transition (ag : AgentModel T S O A)
    (env : EnvModel E T O A) (scoring_fn : List (Transition S O A) → ℚ) :
    (∀ (envs : List E) (k : Nat) (tag : CBPoint),
      countTag (RolloutManager.sample_trajectories ag env envs k).2 tag =
        ((RolloutManager.sample_trajectories ag env envs k).1.map
          (fun tr => tr.steps.length)).sum) ∧
    (∀ (e0 : E) (root : String) (d b : Nat) (tgt : Option ℚ)
      (tag : CBPoint),
      countTag (TreeSearchRollout.sample_tree ag env e0 root d b tgt).2 tag =
        (TreeSearchRollout.sample_tree ag env e0 root d b
          tgt).1.nodes.length) ∧
    (∀ (bw spb : Nat) (envs : List E) (k : Nat) (tag : CBPoint),
      countTag (BeamSearchRollout.sample_trajectories ag env scoring_fn bw
          spb envs k).2.2 tag =
        (BeamSearchRollout.sample_trajectories ag env scoring_fn bw spb envs
          k).2.1.length) ∧
    (∀ tag : CBPoint,
      countTag (TreeSearchRollout.sample_tree unitAgent unitEnv () "root" 3 2
        none).2 tag = 14) := by
  refine ⟨?_, ?_, ?_, ?_⟩
  · intro envs k tag
    exact rollout_batch_events_count ag env k tag envs.enum
  · intro e0 root d b tgt tag
    exact expandRel_events_count ag env b tgt d 0 (env.reset e0).1
      (ag.init_state (env.reset e0).2.2) (env.reset e0).2.1 tag
  · intro bw spb envs k tag
    exact beam_batch_events_count ag env scoring_fn bw spb k tag envs.enum
  · intro tag
    have h1 := expandRel_events_count unitAgent unitEnv 2 none 3 0 () () ()
      tag
    have h2 := expandRel_length_of_no_stop unitAgent unitEnv 2
      (fun _ _ => ⟨rfl, rfl⟩) 3 0 () () ()
    exact h1.trans h2

/-- Claim C6: `sample_trajectories` over N environments returns exactly N
trajectories, one per environment; a trajectory has exactly `max_steps` steps
when the environment never signals done or truncated before then, and stops
with exactly m+1 steps when the first done/truncated signal arrives at the
(0-based) step m below `max_steps`. -/
theorem claim_c6_sample_trajectories_shape (ag : AgentModel T S O A)
    (env : EnvModel E T O A) :
    (∀ (envs : List E) (k : Nat),
      (RolloutManager.sample_trajectories ag env envs k).1.length =
        envs.length) ∧
    (∀ (e0 : E) (k : Nat) (tid : String),
      (∀ i, i < k → stopFlagAt ag env ((env.reset e0).1,
        ag.init_state (env.reset e0).2.2, (env.reset e0).2.1) i = false) →
      (RolloutManager.sample_trajectory ag env e0 k tid).1.steps.length =
        k) ∧
    (∀ (e0 : E) (k m : Nat) (tid : String),
      m < k →
      (∀ i, i < m → stopFlagAt ag env ((env.reset e0).1,
        ag.init_state (env.reset e0).2.2, (env.reset e0).2.1) i = false) →
      stopFlagAt ag env ((env.reset e0).1, ag.init_state (env.reset e0).2.2,
        (env.reset e0).2.1) m = true →
      (RolloutManager.sample_trajectory ag env e0 k tid).1.steps.length =
        m + 1) := by
  refine ⟨?_, ?_, ?_⟩
  · intro envs k
    simp [RolloutManager.sample_trajectories]
  · intro e0 k tid h
    exact runLoop_length_of_no_stop ag env k (env.reset e0).1
      (ag.init_state (env.reset e0).2.2) (env.reset e0).2.1 0 h
  · intro e0 k m tid hm h1 h2
    exact runLoop_length_of_first_stop ag env k (env.reset e0).1
      (ag.init_state (env.reset e0).2.2) (env.reset e0).2.1 0 m hm h1 h2

/-- Witness for C6: the counting environment signals done at the third step
(0-based step 2), so the trajectory has exactly 3 steps under max_steps 10. -/
theorem claim_c6_sample_trajectories_shape_witness :
    (RolloutManager.sample_trajectory countingAgent countingEnv 0 10
      "t").1.steps.length = 2 + 1 :=
  (claim_c6_sample_trajectories_shape countingAgent countingEnv).2.2 0 10 2
    "t" (by omega) (fun i hi => by interval_cases i <;> rfl) rfl

/-- Claim C7: `add_transition(id, t)` fails (with a StructuralError and only a
StructuralError) exactly when the id's parent is missing (for ids more than
one level below the root) or the id already exists (the root id always
exists); on success it appends exactly the one new entry, and on failure the
pure result carries no modified tree, so the tree is unchanged.
`get_transition(id)` fails with a NotFoundError exactly when the id is
unrecorded.  Neither error kind is ever caught by the drivers'
failure-catching configuration, which catches only agent/environment
failures, so they propagate. -/
theorem claim_c7_tree_error_contract (tree : TransitionTree S O A)
    (k : List Nat) (t : Transition S O A) :
    ((tree.add_transition k t).isOk = false ↔
      ((2 ≤ k.length ∧ tree.lookup k.dropLast = none) ∨ k = [] ∨
        (tree.lookup k).isSome)) ∧
    (∀ e, tree.add_transition k t = .error e → e = .structural) ∧
    (∀ t', tree.add_transition k t = .ok t' →
      t'.nodes = tree.nodes ++ [(k, t)] ∧ t'.root_id = tree.root_id) ∧
    (tree.get_transition k = .error .notFound ↔ tree.lookup k = none) ∧
    (∀ t', tree.get_transition k = .ok t' → tree.lookup k = some t') ∧
    (∀ ca ce : Bool, catchesError ca ce .structural = false ∧
      catchesError ca ce .notFound = false ∧
      catchesError ca ce .cycle = false) := by
  refine ⟨?_, ?_, ?_, ?_, ?_, ?_⟩
  · unfold TransitionTree.add_transition
    split_ifs with h1 h2 h3
    · exact iff_of_true rfl (Or.inr (Or.inl h1))
    · exact iff_of_true rfl (Or.inr (Or.inr h2))
    · exact iff_of_true rfl
        (Or.inl ⟨h3.1, Option.isNone_iff_eq_none.mp h3.2⟩)
    · refine iff_of_false (fun h => Bool.noConfusion h) ?_
      intro hcon
      rcases hcon with ⟨hl, hnone⟩ | hnil | hsome
      · exact h3 ⟨hl, by simp [hnone]⟩
      · exact h1 hnil
      · exact h2 hsome
  · intro e
    unfold TransitionTree.add_transition
    split_ifs <;> intro h <;> cases h <;> rfl
  · intro t'
    unfold TransitionTree.add_transition
    split_ifs <;> intro h <;> cases h
    exact ⟨rfl, rfl⟩
  · unfold TransitionTree.get_transition
    cases hl : tree.lookup k <;> simp
  · intro t'
    unfold TransitionTree.get_transition
    cases hl : tree.lookup k <;> intro h <;> cases h
    rfl
  · intro ca ce
    exact ⟨rfl, rfl, rfl⟩

/-- Witness for C7: on the empty tree, inserting two levels below the root
fails, and looking up a missing id reports NotFoundError. -/
theorem claim_c7_tree_error_contract_witness :
    (emptyTreeU.add_transition [0, 0] (mkTrU 0 0 false)).isOk = false ∧
    emptyTreeU.get_transition [0] = Except.error LDPError.notFound :=
  ⟨(claim_c7_tree_error_contract emptyTreeU [0, 0] (mkTrU 0 0 false)).1.mpr
      (Or.inl ⟨by decide, rfl⟩),
    (claim_c7_tree_error_contract emptyTreeU [0]
      (mkTrU 0 0 false)).2.2.2.1.mpr rfl⟩

/-- Claim C9: serializing a Trajectory with `to_jsonl` and deserializing with
`from_jsonl` yields a trajectory with the same `traj_id` and the same number
of steps. -/
theorem claim_c9_jsonl_round_trip (traj : TrajectoryS) :
    (Trajectory.from_jsonl (Trajectory.to_jsonl traj)).traj_id =
      traj.traj_id ∧
    (Trajectory.from_jsonl (Trajectory.to_jsonl traj)).steps.length =
      traj.steps.length := by
  constructor
  · rfl
  · simp [Trajectory.from_jsonl, Trajectory.to_jsonl]

/-- Claim C10: `cost_tracking_ctx(enabled)` runs the body on a state whose
`enabled` flag is the given one and whose other fields are untouched, and on
exit — whether the body completed normally or raised — restores `enabled` to
exactly its value before entry while leaving every other field (and the
body's outcome) exactly as the body left them. -/
theorem claim_c10_cost_tracking_ctx (e : Bool)
    (body : CostTracker → CostTracker × Bool) (st : CostTracker) :
    ((cost_tracking_ctx e body st).1.enabled = st.enabled) ∧
    (({ st with enabled := e } : CostTracker).lifetime_cost_usd =
        st.lifetime_cost_usd ∧
      ({ st with enabled := e } : CostTracker).last_report = st.last_report ∧
      ({ st with enabled := e } : CostTracker).report_every_usd =
        st.report_every_usd ∧
      ({ st with enabled := e } : CostTracker).enabled = e) ∧
    ((cost_tracking_ctx e body st).1.lifetime_cost_usd =
        (body { st with enabled := e }).1.lifetime_cost_usd ∧
      (cost_tracking_ctx e body st).1.last_report =
        (body { st with enabled := e }).1.last_report ∧
      (cost_tracking_ctx e body st).1.report_every_usd =
        (body { st with enabled := e }).1.report_every_usd) ∧
    ((cost_tracking_ctx e body st).2 = (body { st with enabled := e }).2) :=
  ⟨rfl, ⟨rfl, rfl, rfl, rfl⟩, ⟨rfl, rfl, rfl⟩, rfl⟩

end LdpSpec
